import Mathlib

deriving instance DecidableEq for Except

/-
  Shallow embedding of the PySAMR data model (package `samr`) and proofs about
  its specification.

  Conventions of the embedding:
  * Python `int` is modelled by `Int`; numpy integer vectors by `List Int`;
    numpy float vectors by `List Frac`, where `Frac` is an exact rational
    represented as an unreduced numerator/denominator pair (exact arithmetic
    stands in for float64; comparisons use cross-multiplication, which agrees
    with the real-number order whenever the denominators are positive, an
    invariant of every value the library computes and a hypothesis of the
    theorems that need it).
  * Python exceptions are modelled by `Except PyError`; `ValueError` by
    `PyError.valueError`, `RuntimeError` by `PyError.runtimeError`, and
    `IndexError` by `PyError.indexError`.  The spec's error taxonomy maps
    `InvalidArgument` to `ValueError` and `InvalidState` to `RuntimeError`
    (spec section 7 lists "removing the last level" under `InvalidState`, and
    `Mesh.remove_level` raises `RuntimeError`).
  * Dynamic-type checks of the Python code (`isinstance`, `is_scalar`,
    `contains_only_integers` on already-integer input) always succeed in the
    typed embedding and are dropped; each dropped check is noted at the
    definition it belongs to.
  * Python object identity (`id(...)`) for `MeshVariable` objects is modelled
    by a `varId : Nat` drawn from a per-mesh counter `nextVarId`; the identity
    of the owning `Mesh` is a fixed tag `meshId`.
  * Python `for` loops that may raise are modelled by `mapExcept` /
    `foldExcept`, which stop at the first error.  In-place mutation is
    modelled by returning the updated structure; where the Python code
    mutates before a later statement can raise, the divergence is noted at
    the definition.
-/

namespace PySAMR

/-- Python exception kinds raised by the library.  `valueError` models
`ValueError` (the spec's `InvalidArgument` / `NotFound`), `runtimeError`
models `RuntimeError` (the spec's `InvalidState`), `indexError` models
`IndexError`. -/
inductive PyError where
  | valueError (msg : String)
  | runtimeError (msg : String)
  | indexError (msg : String)
deriving DecidableEq

/-- Sequencing of a Python `for` loop that builds a list and may raise:
stops at the first error (models `for x in xs: out.append(f(x))`). -/
def mapExcept (f : α → Except PyError β) : List α → Except PyError (List β)
  | [] => .ok []
  | x :: xs => do
    let y ← f x
    let ys ← mapExcept f xs
    .ok (y :: ys)

/-- Sequencing of a Python `for` loop that threads state and may raise
(models `for x in xs: acc = f(acc, x)`). -/
def foldExcept (f : β → α → Except PyError β) (acc : β) : List α → Except PyError β
  | [] => .ok acc
  | x :: xs => do
    let acc2 ← f acc x
    foldExcept f acc2 xs

/-- Componentwise `xs[i] <= ys[i]` for equal-length integer vectors
(models `numpy.all(numpy.greater_equal(ys, xs))`). -/
def allLe (xs ys : List Int) : Bool :=
  (List.zip xs ys).all (fun p => p.1 ≤ p.2)

/-- An exact rational number standing in for a float64 value: an unreduced
fraction.  Every value the library computes has a positive denominator. -/
structure Frac where
  num : Int
  den : Int
deriving DecidableEq

/-- Embedding of an integer value. -/
def Frac.ofInt (n : Int) : Frac := ⟨n, 1⟩

/-- Exact addition. -/
def Frac.add (a b : Frac) : Frac := ⟨a.num * b.den + b.num * a.den, a.den * b.den⟩

/-- Exact subtraction. -/
def Frac.sub (a b : Frac) : Frac := ⟨a.num * b.den - b.num * a.den, a.den * b.den⟩

/-- Exact multiplication. -/
def Frac.mul (a b : Frac) : Frac := ⟨a.num * b.num, a.den * b.den⟩

/-- Exact division (the divisors the library uses are positive box shapes). -/
def Frac.div (a b : Frac) : Frac := ⟨a.num * b.den, a.den * b.num⟩

/-- Value equality of fractions (numpy `==` on float values), by
cross-multiplication. -/
def Frac.valEq (a b : Frac) : Bool := a.num * b.den == b.num * a.den

/-- Value order on fractions (numpy `<` on float values), by
cross-multiplication; agrees with the real order when denominators are
positive. -/
def Frac.lt (a b : Frac) : Bool := a.num * b.den < b.num * a.den

/-- Componentwise `xs[i] < ys[i]` for coordinate vectors
(models `numpy.all(numpy.greater(ys, xs))`). -/
def allLt (xs ys : List Frac) : Bool :=
  (List.zip xs ys).all (fun p => p.1.lt p.2)

/-- Componentwise value equality of two coordinate vectors of equal length
(models `numpy.all(xs == ys)` on float arrays). -/
def vecValEq (xs ys : List Frac) : Bool :=
  xs.length == ys.length && (List.zip xs ys).all (fun p => p.1.valEq p.2)

/-- Componentwise minimum (models `numpy.min([...], axis=0)` folded pairwise). -/
def vecMin (xs ys : List Int) : List Int := List.zipWith min xs ys

/-- Componentwise maximum (models `numpy.max([...], axis=0)` folded pairwise). -/
def vecMax (xs ys : List Int) : List Int := List.zipWith max xs ys

/-! ## Box (samr/box/Box.py) -/

/-- A rectangular region of integer index space (`samr.box.Box`): inclusive
`lower` and `upper` corner index vectors (numpy int64 arrays in the source). -/
structure Box where
  lower : List Int
  upper : List Int
deriving DecidableEq

/-- `Box.num_dimensions`: `len(self.lower)`. -/
def Box.num_dimensions (b : Box) : Nat := b.lower.length

/-- `Box.shape`: `self.upper - self.lower + ones(num_dimensions)`. -/
def Box.shape (b : Box) : List Int :=
  List.zipWith (fun u l => u - l + 1) b.upper b.lower

/-- `Box.size`: `numpy.product(self.shape)`. -/
def Box.size (b : Box) : Int := b.shape.prod

/-- The validation performed by `Box.__init__` on already-integer input:
non-empty corners, equal lengths, `upper >= lower` componentwise.  (The
`is_array` / `contains_only_integers` dynamic-type checks of the source are
subsumed by the `List Int` type.) -/
def Box.valid (b : Box) : Bool :=
  !b.lower.isEmpty && b.lower.length == b.upper.length && allLe b.lower b.upper

/-- `Box.__init__(lower, upper)`: validates and constructs, raising
`ValueError` exactly where the source does. -/
def Box.init (lower upper : List Int) : Except PyError Box :=
  if lower.isEmpty then
    .error (.valueError ("lower should not be empty"))
  else if upper.isEmpty then
    .error (.valueError ("upper should not be empty"))
  else if lower.length != upper.length then
    .error (.valueError ("lower and upper should have the same number of components"))
  else if !allLe lower upper then
    .error (.valueError ("upper should be greater than or equal to lower along all axes"))
  else
    .ok ⟨lower, upper⟩

/-- `Box.__eq__`: componentwise equality of the corner vectors. -/
def Box.eq (a b : Box) : Bool :=
  decide (a.lower = b.lower) && decide (a.upper = b.upper)

/-- `Box.compute_bounding_box(boxes)`: componentwise min of the lowers and
max of the uppers, passed through the `Box` constructor.  An empty list makes
`numpy.min` raise `ValueError` in the source. -/
def Box.compute_bounding_box (boxes : List Box) : Except PyError Box :=
  match boxes with
  | [] => .error (.valueError ("zero-size array to reduction operation minimum"))
  | b :: rest =>
    Box.init (rest.foldl (fun acc bb => vecMin acc bb.lower) b.lower)
             (rest.foldl (fun acc bb => vecMax acc bb.upper) b.upper)

/-- The `factor` argument of `Box.refine_boxes` / `Box.coarsen_boxes`:
an integer scalar or a per-axis integer vector. -/
inductive Factor where
  | scalar (f : Int)
  | vector (fs : List Int)
deriving DecidableEq

/-- The factor validation and broadcast shared by `refine_boxes` and
`coarsen_boxes`: a scalar is broadcast via `factor * ones(num_dimensions)`;
a vector must be non-empty and of length `num_dimensions`.  (The scalar
integrality check `factor % 1 != 0` and the `contains_only_integers` check
are subsumed by the `Int` type.) -/
def Factor.validate (factor : Factor) (num_dimensions : Nat) : Except PyError (List Int) :=
  match factor with
  | .scalar f => .ok (List.replicate num_dimensions f)
  | .vector fs =>
    if fs.isEmpty then
      .error (.valueError ("when factor is an array, it should not be empty"))
    else if fs.length != num_dimensions then
      .error (.valueError ("when factor is an array, its length should be equal to the dimensionality of the Box items in boxes"))
    else
      .ok fs

/-- The per-box body of the `refine_boxes` loop:
`Box(box.lower * factor, (box.upper + 1) * factor - 1)`. -/
def Box.refineOne (b : Box) (f : List Int) : Except PyError Box :=
  Box.init (List.zipWith (fun l fi => l * fi) b.lower f)
           (List.zipWith (fun u fi => (u + 1) * fi - 1) b.upper f)

/-- The per-box body of the `coarsen_boxes` loop:
`Box(box.lower // factor, box.upper // factor)` with Python floor division. -/
def Box.coarsenOne (b : Box) (f : List Int) : Except PyError Box :=
  Box.init (List.zipWith (fun l fi => Int.fdiv l fi) b.lower f)
           (List.zipWith (fun u fi => Int.fdiv u fi) b.upper f)

/-- Shared argument checks of `refine_boxes` / `coarsen_boxes` on the boxes
list: `boxes[0]` raises `IndexError` on an empty list; all boxes must share
`num_dimensions`.  Returns the common dimensionality. -/
def Box.checkBoxesDims (boxes : List Box) : Except PyError Nat :=
  match boxes with
  | [] => .error (.indexError ("list index out of range"))
  | b :: rest =>
    if !rest.all (fun bb => bb.num_dimensions == b.num_dimensions) then
      .error (.valueError ("all Box objects in boxes should have the same num_dimensions value"))
    else
      .ok b.num_dimensions

/-- `Box.refine_boxes(boxes, factor)` (a single `Box` argument is wrapped in a
singleton list by the source before this point). -/
def Box.refine_boxes (boxes : List Box) (factor : Factor) : Except PyError (List Box) := do
  let nd ← Box.checkBoxesDims boxes
  let f ← factor.validate nd
  mapExcept (Box.refineOne · f) boxes

/-- `Box.coarsen_boxes(boxes, factor)` (a single `Box` argument is wrapped in a
singleton list by the source before this point). -/
def Box.coarsen_boxes (boxes : List Box) (factor : Factor) : Except PyError (List Box) := do
  let nd ← Box.checkBoxesDims boxes
  let f ← factor.validate nd
  mapExcept (Box.coarsenOne · f) boxes

/-! ## CartesianGeometry (samr/geometry/CartesianGeometry.py, Geometry.py) -/

/-- A rectangular region of Cartesian coordinate space
(`samr.geometry.CartesianGeometry`): corner coordinate vectors, float64 in the
source, modelled exactly by `Frac`.  The abstract base `Geometry` only carries
`num_dimensions`, which is derived here as `x_lower.length`. -/
structure CartesianGeometry where
  x_lower : List Frac
  x_upper : List Frac
deriving DecidableEq

/-- `Geometry.num_dimensions`; set by `CartesianGeometry.__init__` to
`len(x_lower)`. -/
def CartesianGeometry.num_dimensions (g : CartesianGeometry) : Nat := g.x_lower.length

/-- `CartesianGeometry.shape`: `x_upper - x_lower`. -/
def CartesianGeometry.shape (g : CartesianGeometry) : List Frac :=
  List.zipWith (fun u l => Frac.sub u l) g.x_upper g.x_lower

/-- The validation performed by `CartesianGeometry.__init__` together with
`Geometry.__init__`: equal lengths, `x_upper > x_lower` componentwise, and a
positive number of dimensions. -/
def CartesianGeometry.valid (g : CartesianGeometry) : Bool :=
  g.x_lower.length == g.x_upper.length && allLt g.x_lower g.x_upper &&
    !g.x_lower.isEmpty

/-- `CartesianGeometry.__init__(x_lower, x_upper)`: checks equal lengths and
`x_upper > x_lower` componentwise, then `Geometry.__init__` rejects
`num_dimensions <= 0` (empty corner vectors).  The `is_array` type checks are
subsumed by the `List Frac` type. -/
def CartesianGeometry.init (x_lower x_upper : List Frac) : Except PyError CartesianGeometry :=
  if x_lower.length != x_upper.length then
    .error (.valueError ("x_lower and x_upper should have the same number of components"))
  else if !allLt x_lower x_upper then
    .error (.valueError ("x_upper should be greater than x_lower along all axes"))
  else if x_lower.isEmpty then
    .error (.valueError ("num_dimensions should be a positive number"))
  else
    .ok ⟨x_lower, x_upper⟩

/-- `CartesianGeometry.__eq__`: same `num_dimensions` and componentwise equal
corner vectors (value equality of float arrays). -/
def CartesianGeometry.eq (a b : CartesianGeometry) : Bool :=
  a.num_dimensions == b.num_dimensions && vecValEq a.x_lower b.x_lower &&
    vecValEq a.x_upper b.x_upper

/-- `CartesianGeometry.compute_dx(box)`: `self.shape / box.shape`,
elementwise. -/
def CartesianGeometry.compute_dx (g : CartesianGeometry) (box : Box) : List Frac :=
  List.zipWith (fun s c => Frac.div s (Frac.ofInt c)) g.shape box.shape

/-- `x + dx * (a - b)` elementwise, for the corner update in
`compute_geometry` (`a`, `b` are integer index vectors). -/
def cornerShift (xs dx : List Frac) (a b : List Int) : List Frac :=
  List.zipWith (fun p c => Frac.add p.1 (Frac.mul p.2 (Frac.ofInt c))) (List.zip xs dx)
    (List.zipWith (fun ai bi => ai - bi) a b)

/-- `CartesianGeometry.compute_geometry(reference_box, box)`:
`dx = compute_dx(reference_box)`;
`x_lower = self.x_lower + dx * (box.lower - reference_box.lower)`;
`x_upper = self.x_upper + dx * (box.upper - reference_box.upper)`;
the result goes through the validating `CartesianGeometry` constructor.
(`Geometry.compute_geometry` only performs `isinstance` checks, subsumed by
the `Box` type.) -/
def CartesianGeometry.compute_geometry (g : CartesianGeometry)
    (reference_box box : Box) : Except PyError CartesianGeometry :=
  let dx := g.compute_dx reference_box
  CartesianGeometry.init
    (cornerShift g.x_lower dx box.lower reference_box.lower)
    (cornerShift g.x_upper dx box.upper reference_box.upper)

/-! ## MeshVariable (samr/mesh/MeshVariable.py) -/

/-- `MeshVariable.Location`: placement of variable values in a mesh cell. -/
inductive Location where
  | NODE
  | CELL
  | FACE
deriving DecidableEq

/-- `MeshVariable.Precision`: floating-point precision options (float64 /
float32 numpy dtypes in the source). -/
inductive Precision where
  | DOUBLE
  | SINGLE
deriving DecidableEq

/-- A `samr.mesh.MeshVariable`: a field descriptor.  `varId` models the Python
object identity `id(variable)`; `meshId` models the identity of the owning
`Mesh` (the back-reference `self._mesh`).  `max_stencil_width` is the stored
int64 vector (after any scalar broadcast); `dtype` is kept as the originating
`Precision` value. -/
structure MeshVariable where
  varId : Nat
  meshId : Nat
  location : Location
  max_stencil_width : List Int
  depth : Int
  precision : Precision
deriving DecidableEq

/-- Python `==` on `MeshVariable` objects: the source defines no `__eq__`, so
Python falls back to object identity. -/
def MeshVariable.pyEq (u v : MeshVariable) : Bool := u.varId == v.varId

/-- Modelled from the spec: the `MeshVariable` equality the spec describes
("Two variables are equal iff all descriptive fields and owning mesh match"),
which is absent from the source (`MeshVariable` defines no `__eq__`).  Kept
for comparison with the identity-based `MeshVariable.pyEq` of the code. -/
def MeshVariable.specEq (u v : MeshVariable) : Bool :=
  u.meshId == v.meshId && decide (u.location = v.location) &&
    decide (u.max_stencil_width = v.max_stencil_width) &&
    decide (u.depth = v.depth) && decide (u.precision = v.precision)

/-- The `max_stencil_width` argument of `MeshVariable.__init__`: an integer
scalar (broadcast to all axes) or a per-axis integer vector. -/
inductive StencilWidthArg where
  | scalar (w : Int)
  | vector (ws : List Int)
deriving DecidableEq

/-- `MeshVariable.__init__`: a vector `max_stencil_width` must be non-empty
(the `contains_only_integers` check is subsumed by `List Int`); a scalar is
broadcast to `mesh.num_dimensions` components.  `location` and `precision`
membership checks always pass for the typed enums, and the `depth` checks
(`is_scalar`, `depth % 1 == 0`) always pass for `Int` — the source does NOT
check that `depth` is positive, nor that `max_stencil_width` is
non-negative, nor the vector length. -/
def MeshVariable.init (meshId varId : Nat) (num_dimensions : Nat)
    (location : Location) (max_stencil_width : StencilWidthArg)
    (depth : Int) (precision : Precision) : Except PyError MeshVariable :=
  match max_stencil_width with
  | .vector ws =>
    if ws.isEmpty then
      .error (.valueError ("when max_stencil_width is an array, it should not be empty"))
    else
      .ok ⟨varId, meshId, location, ws, depth, precision⟩
  | .scalar w =>
      .ok ⟨varId, meshId, location, List.replicate num_dimensions w, depth, precision⟩

/-! ## MeshBlock (samr/mesh/MeshBlock.py) -/

/-- A numpy array as created by `numpy.zeros(shape, dtype)`: the library only
ever allocates zero-filled arrays and never writes to them, so an array is
modelled by its shape and dtype. -/
structure NDArray where
  shape : List Int
  dtype : Precision
deriving DecidableEq

/-- The value stored in a block's data map for one variable: a single array
for CELL/NODE variables, a list of arrays (one per coordinate direction) for
FACE variables. -/
inductive BlockData where
  | single (a : NDArray)
  | perAxis (arrays : List NDArray)
deriving DecidableEq

/-- A `samr.mesh.MeshBlock`: one box (copied by value), its geometry, the
ordered list of registered variables, and the `_data` dict keyed by
`id(variable)` — modelled as an association list keyed by `varId`, with dict
insertion semantics. -/
structure MeshBlock where
  box : Box
  geometry : CartesianGeometry
  stores_vectors_contiguously : Bool
  variableList : List MeshVariable
  dataEntries : List (Nat × BlockData)
deriving DecidableEq

/-- Python dict lookup in `_data` (first and only entry with the key). -/
def lookupId (k : Nat) : List (Nat × BlockData) → Option BlockData
  | [] => none
  | p :: rest => if p.1 == k then some p.2 else lookupId k rest

/-- Python dict assignment `_data[k] = d`: replaces an existing binding,
otherwise appends (dicts preserve insertion order). -/
def dictInsert (entries : List (Nat × BlockData)) (k : Nat) (d : BlockData) :
    List (Nat × BlockData) :=
  if entries.any (fun p => p.1 == k) then
    entries.map (fun p => if p.1 == k then (k, d) else p)
  else
    entries ++ [(k, d)]

/-- `MeshBlock.num_dimensions`: `self.box.num_dimensions`. -/
def MeshBlock.num_dimensions (blk : MeshBlock) : Nat := blk.box.num_dimensions

/-- `MeshBlock.lower`: `self.box.lower`. -/
def MeshBlock.lower (blk : MeshBlock) : List Int := blk.box.lower

/-- `MeshBlock.upper`: `self.box.upper`. -/
def MeshBlock.upper (blk : MeshBlock) : List Int := blk.box.upper

/-- `MeshBlock.__init__(box, geometry, stores_vectors_contiguously=True)`:
rejects mismatched dimensionality; the `isinstance` checks are subsumed by
the types; `copy.deepcopy` of box and geometry is value semantics here. -/
def MeshBlock.init (box : Box) (geometry : CartesianGeometry)
    (stores_vectors_contiguously : Bool) : Except PyError MeshBlock :=
  if box.num_dimensions != geometry.num_dimensions then
    .error (.valueError ("box and geometry should have the same number of dimensions"))
  else
    .ok ⟨box, geometry, stores_vectors_contiguously, [], []⟩

/-- `MeshVariable.box(block, with_halo)` for an explicit block:
with halo, `Box(block.lower - max_stencil_width, block.upper +
max_stencil_width)` through the validating constructor; without halo, a copy
of `block.box`.  (The block-omitted form delegates to the mesh and is not
needed by the claims.) -/
def MeshVariable.box (v : MeshVariable) (block : MeshBlock) (with_halo : Bool) :
    Except PyError Box :=
  if with_halo then
    Box.init (List.zipWith (fun l w => l - w) block.lower v.max_stencil_width)
             (List.zipWith (fun u w => u + w) block.upper v.max_stencil_width)
  else
    .ok block.box

/-- The depth adjustment shared by the CELL/NODE and FACE branches of
`MeshBlock._create_data`: for `depth > 1`, append the component axis when
vectors are stored contiguously, otherwise prepend it. -/
def adjustDepth (stores_vectors_contiguously : Bool) (depth : Int)
    (data_shape : List Int) : List Int :=
  if depth > 1 then
    if stores_vectors_contiguously then data_shape ++ [depth]
    else depth :: data_shape
  else data_shape

/-- `data_shape[i] += 1` on a shape vector (FACE branch). -/
def incAt (shape : List Int) (i : Nat) : List Int :=
  shape.set i (shape.getD i 0 + 1)

/-- `MeshBlock._create_data(variable)`: requires the variable to be in the
block's variable list (identity membership), computes the halo box shape via
`variable.box(self, with_halo=True)`, then allocates zeros — one array for
CELL (halo shape) or NODE (halo shape + 1), and one array per coordinate
direction for FACE (halo shape with +1 on the direction's axis), each with
the depth axis appended/prepended for `depth > 1`. -/
def MeshBlock.create_data (blk : MeshBlock) (v : MeshVariable) :
    Except PyError BlockData :=
  if !blk.variableList.any (fun u => u.pyEq v) then
    .error (.valueError ("variable should be in variable list for MeshBlock"))
  else do
    let halo_box ← v.box blk true
    let box_shape := halo_box.shape
    match v.location with
    | .CELL =>
      .ok (.single ⟨adjustDepth blk.stores_vectors_contiguously v.depth box_shape,
                    v.precision⟩)
    | .NODE =>
      .ok (.single ⟨adjustDepth blk.stores_vectors_contiguously v.depth
                      (box_shape.map (fun s => s + 1)), v.precision⟩)
    | .FACE =>
      .ok (.perAxis ((List.range blk.num_dimensions).map (fun i =>
            ⟨adjustDepth blk.stores_vectors_contiguously v.depth (incAt box_shape i),
             v.precision⟩)))

/-- `MeshBlock.add_variable(variable)`: a no-op if the variable is already
registered (identity membership, since `MeshVariable` has no `__eq__`);
otherwise appends it to the variable list and stores freshly created data
under `id(variable)`.  (In the source the append happens before
`_create_data` runs; a `_create_data` failure is propagated here without the
partially mutated block being observable.) -/
def MeshBlock.add_variable (blk : MeshBlock) (v : MeshVariable) :
    Except PyError MeshBlock :=
  if blk.variableList.any (fun u => u.pyEq v) then
    .ok blk
  else do
    let blk2 : MeshBlock := { blk with variableList := blk.variableList ++ [v] }
    let d ← blk2.create_data v
    .ok { blk2 with dataEntries := dictInsert blk2.dataEntries v.varId d }

/-- `MeshBlock.data(variable)` for an explicit variable: dict lookup by
`id(variable)`, raising `ValueError` when the variable was never registered
on this block.  (The variable-omitted form returns the whole `_data` dict
and is not needed by the claims.) -/
def MeshBlock.data (blk : MeshBlock) (v : MeshVariable) : Except PyError BlockData :=
  match lookupId v.varId blk.dataEntries with
  | some d => .ok d
  | none => .error (.valueError ("variable is not defined on MeshBlock"))

/-! ## MeshLevel (samr/mesh/MeshLevel.py) -/

/-- A `samr.mesh.MeshLevel`: a level number, the variables registered at
level scope, and the ordered list of blocks. -/
structure MeshLevel where
  level_number : Int
  variableList : List MeshVariable
  blocks : List MeshBlock
deriving DecidableEq

/-- `MeshLevel.num_blocks`. -/
def MeshLevel.num_blocks (lvl : MeshLevel) : Nat := lvl.blocks.length

/-- `MeshLevel._generate_blocks(boxes, first_box_geometry)`: block 0 takes the
given geometry directly; every later block's geometry is
`first_box_geometry.compute_geometry(boxes[0], box)`.  An empty list is
rejected with `ValueError`.  (`MeshBlock` is constructed with the default
`stores_vectors_contiguously=True`.) -/
def MeshLevel.generate_blocks (boxes : List Box) (first_box_geometry : CartesianGeometry) :
    Except PyError (List MeshBlock) :=
  match boxes with
  | [] => .error (.valueError ("boxes should not be empty"))
  | b0 :: rest => do
    let blk0 ← MeshBlock.init b0 first_box_geometry true
    let blks ← mapExcept (fun b => do
        let g ← first_box_geometry.compute_geometry b0 b
        MeshBlock.init b g true) rest
    .ok (blk0 :: blks)

/-- `MeshLevel.__init__(level_number, boxes, first_box_geometry)`: rejects a
negative `level_number` (the scalar/integrality checks are subsumed by
`Int`), then generates one block per box.  (A single `Box` argument is
wrapped in a singleton list by the source before this point.) -/
def MeshLevel.init (level_number : Int) (boxes : List Box)
    (first_box_geometry : CartesianGeometry) : Except PyError MeshLevel :=
  if level_number < 0 then
    .error (.valueError ("level_number should be a non-negative number"))
  else do
    let blks ← MeshLevel.generate_blocks boxes first_box_geometry
    .ok ⟨level_number, [], blks⟩

/-- `MeshLevel.add_variable(variable)`: appends the variable at level scope
unless already present (identity membership), then fans out to every block
(`MeshBlock.add_variable` is idempotent). -/
def MeshLevel.add_variable (lvl : MeshLevel) (v : MeshVariable) :
    Except PyError MeshLevel := do
  let vars := if lvl.variableList.any (fun u => u.pyEq v) then lvl.variableList
              else lvl.variableList ++ [v]
  let blks ← mapExcept (fun blk => blk.add_variable v) lvl.blocks
  .ok ⟨lvl.level_number, vars, blks⟩

/-! ## Mesh (samr/mesh/Mesh.py) -/

/-- A `samr.mesh.Mesh`: the internal `_domain` box list, the derived bounding
box and base geometry, the ordered level list (coarsest first), and the list
of all variables created on the mesh.  `meshId` models the Python identity of
the mesh object; `nextVarId` is the supply of fresh `MeshVariable`
identities. -/
structure Mesh where
  meshId : Nat
  domainBoxes : List Box
  bounding_box : Box
  geometry : CartesianGeometry
  levels : List MeshLevel
  variableList : List MeshVariable
  nextVarId : Nat
deriving DecidableEq

/-- `Mesh.num_levels`: `len(self.levels)`. -/
def Mesh.num_levels (m : Mesh) : Nat := m.levels.length

/-- `Mesh.num_dimensions`: `self.geometry.num_dimensions`. -/
def Mesh.num_dimensions (m : Mesh) : Nat := m.geometry.num_dimensions

/-- `Mesh.is_single_level`: `self.num_levels == 1`. -/
def Mesh.is_single_level (m : Mesh) : Bool := m.num_levels == 1

/-- `Mesh.is_single_block`: `self.is_single_level and len(self._domain) == 1`. -/
def Mesh.is_single_block (m : Mesh) : Bool :=
  m.is_single_level && m.domainBoxes.length == 1

/-- The value returned by the `Mesh.domain` property: the `Box` itself when
`_domain` holds exactly one box, a tuple of Boxes otherwise (the source never
returns a list: `tuple(self._domain)`). -/
inductive DomainView where
  | singleBox (b : Box)
  | boxTuple (boxes : List Box)
deriving DecidableEq

/-- `Mesh.domain`: `self._domain[0]` when `len(self._domain) == 1`, else
`tuple(self._domain)`. -/
def Mesh.domain (m : Mesh) : DomainView :=
  match m.domainBoxes with
  | [b] => .singleBox b
  | boxes => .boxTuple boxes

/-- `Mesh.add_level(boxes, first_box_geometry)`: builds a `MeshLevel`
numbered `num_levels`, appends it, and fans all existing mesh variables out
onto it.  (In the source the level is appended before the variable fan-out
runs; a fan-out failure is propagated here without the partially mutated
mesh being observable.  The fan-out mutates only the new level.) -/
def Mesh.add_level (m : Mesh) (boxes : List Box)
    (first_box_geometry : CartesianGeometry) : Except PyError Mesh := do
  let lvl ← MeshLevel.init (Int.ofNat m.num_levels) boxes first_box_geometry
  let lvl2 ← foldExcept (fun l v => l.add_variable v) lvl m.variableList
  .ok { m with levels := m.levels ++ [lvl2] }

/-- `Mesh.__init__(domain, first_box_geometry)`: rejects an empty domain,
copies the box list, derives the bounding box and the base geometry
(`first_box_geometry.compute_geometry(domain[0], bounding_box)`), then
creates the coarsest level via `add_level(domain, first_box_geometry)`.
(A single `Box` argument is wrapped in a singleton list by the source.) -/
def Mesh.init (meshId : Nat) (domain : List Box)
    (first_box_geometry : CartesianGeometry) : Except PyError Mesh :=
  match domain with
  | [] => .error (.valueError ("domain should not be empty"))
  | d0 :: _ => do
    let bbox ← Box.compute_bounding_box domain
    let geom ← first_box_geometry.compute_geometry d0 bbox
    let m0 : Mesh := ⟨meshId, domain, bbox, geom, [], [], 0⟩
    m0.add_level domain first_box_geometry

/-- The `level_numbers` argument of `Mesh.create_variable`: an integer scalar
or a list of integers. -/
inductive LevelNumsArg where
  | scalar (n : Int)
  | vector (ns : List Int)
deriving DecidableEq

/-- The `level_numbers` validation of `Mesh.create_variable`: `None` targets
all levels; a scalar is wrapped in a singleton list; a list must be non-empty,
with `min >= 0` and `max < num_levels` (for a non-empty list, `min < 0` iff
some entry is negative, and `max >= num_levels` iff some entry is too large).
The `contains_only_integers` check is subsumed by `Int`. -/
def validateLevelNumbers (num_levels : Nat) :
    Option LevelNumsArg → Except PyError (Option (List Int))
  | none => .ok none
  | some (.scalar n) =>
    if n < 0 then
      .error (.valueError ("level_numbers should not contain negative values"))
    else if (num_levels : Int) ≤ n then
      .error (.valueError ("level_numbers should only contain values less than number of levels in the Mesh"))
    else
      .ok (some [n])
  | some (.vector ns) =>
    if ns.isEmpty then
      .error (.valueError ("level_numbers should not be empty"))
    else if ns.any (fun n => n < 0) then
      .error (.valueError ("level_numbers should not contain negative values"))
    else if ns.any (fun n => (num_levels : Int) ≤ n) then
      .error (.valueError ("level_numbers should only contain values less than number of levels in the Mesh"))
    else
      .ok (some ns)

/-- The level indices targeted by `Mesh.create_variable`: all levels when
`level_numbers` is `None`, else the validated (necessarily non-negative)
entries. -/
def targetIdxList (num_levels : Nat) : Option (List Int) → List Nat
  | none => List.range num_levels
  | some ns => ns.map Int.toNat

/-- The variable fan-out loop of `Mesh.create_variable`:
`for level in levels: level.add_variable(variable)`, where each target level
object lives at its index in `self._levels` — modelled by updating the list
at each target index in order. -/
def addVarAtIndices (levels : List MeshLevel) (idxs : List Nat) (v : MeshVariable) :
    Except PyError (List MeshLevel) :=
  foldExcept (fun lvls i =>
    match lvls[i]? with
    | some lvl => do
        let lvl2 ← lvl.add_variable v
        .ok (lvls.set i lvl2)
    | none => .error (.indexError ("list index out of range"))) levels idxs

/-- `Mesh.create_variable(location, max_stencil_width, depth, precision,
level_numbers)`: validates `level_numbers`, constructs a fresh
`MeshVariable` bound to this mesh (fresh Python identity `nextVarId`),
appends it to `self._variables`, and registers it on every block of every
targeted level.  Returns the updated mesh together with the new variable. -/
def Mesh.create_variable (m : Mesh) (location : Location)
    (max_stencil_width : StencilWidthArg) (depth : Int) (precision : Precision)
    (level_numbers : Option LevelNumsArg) : Except PyError (Mesh × MeshVariable) := do
  let lns ← validateLevelNumbers m.num_levels level_numbers
  let v ← MeshVariable.init m.meshId m.nextVarId m.num_dimensions location
            max_stencil_width depth precision
  let lvls ← addVarAtIndices m.levels (targetIdxList m.num_levels lns) v
  .ok ({ m with variableList := m.variableList ++ [v], levels := lvls,
                nextVarId := m.nextVarId + 1 }, v)

/-- `Mesh.remove_level()`: raises `RuntimeError` when only the coarsest level
remains (the raise happens before any mutation, so the mesh is unchanged);
otherwise pops and returns the highest-numbered level. -/
def Mesh.remove_level (m : Mesh) : Except PyError (MeshLevel × Mesh) :=
  if m.num_levels == 1 then
    .error (.runtimeError ("the coarsest MeshLevel cannot be removed from Mesh"))
  else
    match m.levels.getLast? with
    | some lvl => .ok (lvl, { m with levels := m.levels.dropLast })
    | none => .error (.indexError ("list index out of range"))

/-- `Mesh.data(variable)`: raises `RuntimeError` unless the mesh is
single-block; raises `ValueError` when the variable is not in the mesh's
variable list (identity membership, since `MeshVariable` has no `__eq__`);
otherwise returns `variable.data(self.levels[0].blocks[0])`, which delegates
to `MeshBlock.data(variable)` on the unique block.  The mesh itself is not
modified. -/
def Mesh.data (m : Mesh) (v : MeshVariable) : Except PyError BlockData :=
  if !m.is_single_block then
    .error (.runtimeError ("Mesh is not single-block. data is unavailable"))
  else if !m.variableList.any (fun u => u.pyEq v) then
    .error (.valueError ("variable is not in the variable list for Mesh"))
  else
    match m.levels[0]? with
    | some lvl =>
      match lvl.blocks[0]? with
      | some blk => blk.data v
      | none => .error (.indexError ("list index out of range"))
    | none => .error (.indexError ("list index out of range"))

/-- The stencil width stored by `MeshVariable.__init__`: a scalar is
broadcast to `num_dimensions` components, a vector is stored as given. -/
def stencilBroadcast (msw : StencilWidthArg) (num_dimensions : Nat) : List Int :=
  match msw with
  | .scalar w => List.replicate num_dimensions w
  | .vector ws => ws

/-! ## Derived predicates on meshes -/

/-- The level-hierarchy invariant of the spec: at least one level, and
`levels[i].level_number == i` for every index (contiguous numbering starting
at 0, coarsest first). -/
def levelNumbersOK (m : Mesh) : Prop :=
  1 ≤ m.levels.length ∧
    ∀ i (h : i < m.levels.length), (m.levels[i]).level_number = (i : Int)

/-- A level-hierarchy operation on a mesh: `Mesh.add_level` with some
arguments, or `Mesh.remove_level`. -/
inductive MeshOp where
  | addLevel (boxes : List Box) (g : CartesianGeometry)
  | removeLevel

/-- Apply one operation; a failing operation leaves the mesh as it was (a
`remove_level` failure raises before any mutation in the source; a failing
`add_level` can leave the appended level behind in the source, which also
satisfies the hierarchy invariant, so treating it as a no-op is harmless for
the properties proved here). -/
def Mesh.applyOp (m : Mesh) (op : MeshOp) : Mesh :=
  match op with
  | .addLevel boxes g =>
    match m.add_level boxes g with
    | .ok m2 => m2
    | .error _ => m
  | .removeLevel =>
    match m.remove_level with
    | .ok (_, m2) => m2
    | .error _ => m

/-- Apply a sequence of level-hierarchy operations. -/
def Mesh.applyOps (m : Mesh) (ops : List MeshOp) : Mesh :=
  ops.foldl Mesh.applyOp m

/-- All variable identities and data keys of a block are below `n`. -/
def blockIdsBelow (n : Nat) (blk : MeshBlock) : Prop :=
  (∀ u ∈ blk.variableList, u.varId < n) ∧ ∀ p ∈ blk.dataEntries, p.1 < n

/-- All variable identities and data keys of a level are below `n`. -/
def levelIdsBelow (n : Nat) (lvl : MeshLevel) : Prop :=
  (∀ u ∈ lvl.variableList, u.varId < n) ∧ ∀ blk ∈ lvl.blocks, blockIdsBelow n blk

/-- All `MeshVariable` identities and data keys stored anywhere in the mesh
are below the mesh's fresh-identity counter.  This models the freshness of
Python object identities: `id()` of a newly created object differs from the
`id()` of every live object.  It holds for `Mesh.init` results and is
preserved by the mesh operations. -/
def Mesh.freshIds (m : Mesh) : Prop :=
  (∀ v ∈ m.variableList, v.varId < m.nextVarId) ∧
    ∀ lvl ∈ m.levels, levelIdsBelow m.nextVarId lvl

/-- The variable identity `v.varId` appears nowhere in the block: not in its
variable list and not among its data keys. -/
def blockFresh (v : MeshVariable) (blk : MeshBlock) : Prop :=
  (∀ u ∈ blk.variableList, u.varId ≠ v.varId) ∧ ∀ p ∈ blk.dataEntries, p.1 ≠ v.varId

/-- The identity `k` is registered on the block: some listed variable has it,
and the data dict has an entry under it. -/
def blockHasId (k : Nat) (blk : MeshBlock) : Prop :=
  (∃ u ∈ blk.variableList, u.varId = k) ∧ ∃ d, lookupId k blk.dataEntries = some d

/-- The variable identity appears nowhere in the level. -/
def levelFresh (v : MeshVariable) (lvl : MeshLevel) : Prop :=
  ∀ blk ∈ lvl.blocks, blockFresh v blk

/-- The identity `k` is registered at level scope and on every block of the
level. -/
def levelHasId (k : Nat) (lvl : MeshLevel) : Prop :=
  (∃ u ∈ lvl.variableList, u.varId = k) ∧ ∀ blk ∈ lvl.blocks, blockHasId k blk

/-- A level is ready for `add_variable v`: the identity is either completely
fresh or already fully registered. -/
def levelReady (v : MeshVariable) (lvl : MeshLevel) : Prop :=
  levelFresh v lvl ∨ levelHasId v.varId lvl

/-- All fractions in a coordinate vector have positive denominators (true of
every float value, and preserved by the `Frac` operations the library
performs). -/
def fracsWF (xs : List Frac) : Prop := ∀ f ∈ xs, 0 < f.den

/-- Well-formedness of a geometry's coordinate values: positive
denominators throughout. -/
def CartesianGeometry.wfDen (g : CartesianGeometry) : Prop :=
  fracsWF g.x_lower ∧ fracsWF g.x_upper

/-! ## Concrete fixtures used by witnesses and counterexamples -/

/-- A 2-D box of shape 10 x 10. -/
def testBox : Box := ⟨[0, 0], [9, 9]⟩

/-- A second 2-D box of shape 10 x 10, adjacent to `testBox`. -/
def testBoxB : Box := ⟨[10, 0], [19, 9]⟩

/-- The unit square as the first-box geometry. -/
def testGeom : CartesianGeometry := ⟨[⟨0, 1⟩, ⟨0, 1⟩], [⟨1, 1⟩, ⟨1, 1⟩]⟩

/-- The value of `Mesh.init 0 [testBox] testGeom` (single-box, single-level
mesh; the base geometry is `testGeom.compute_geometry testBox testBox`, the
unit square as unreduced fractions). -/
def testMesh : Mesh :=
  ⟨0, [testBox], testBox,
   ⟨[⟨0, 10⟩, ⟨0, 10⟩], [⟨10, 10⟩, ⟨10, 10⟩]⟩,
   [⟨0, [], [⟨testBox, testGeom, true, [], []⟩]⟩], [], 0⟩

/-- The value of `Mesh.init 1 [testBox, testBoxB] testGeom` (two-box domain:
single-level but not single-block). -/
def testMesh2B : Mesh :=
  ⟨1, [testBox, testBoxB], ⟨[0, 0], [19, 9]⟩,
   ⟨[⟨0, 10⟩, ⟨0, 10⟩], [⟨20, 10⟩, ⟨10, 10⟩]⟩,
   [⟨0, [],
     [⟨testBox, testGeom, true, [], []⟩,
      ⟨testBoxB, ⟨[⟨10, 10⟩, ⟨0, 10⟩], [⟨20, 10⟩, ⟨10, 10⟩]⟩, true, [], []⟩]⟩],
   [], 0⟩

/-- A level-1 box covering the refined domain of `testBox`. -/
def testBoxL1 : Box := ⟨[0, 0], [19, 19]⟩

/-- The value of `testMesh.add_level [testBoxL1] testGeom`. -/
def testMeshTwoLvl : Mesh :=
  { testMesh with
    levels := testMesh.levels ++ [⟨1, [], [⟨testBoxL1, testGeom, true, [], []⟩]⟩] }

/-- Two `create_variable` calls with identical (default) arguments on
`testMesh`, keeping the final mesh and the two returned variables. -/
def twoVarsDefault : Except PyError (Mesh × MeshVariable × MeshVariable) := do
  let r1 ← testMesh.create_variable .NODE (.scalar 0) 1 .DOUBLE none
  let r2 ← r1.1.create_variable .NODE (.scalar 0) 1 .DOUBLE none
  .ok (r2.1, r1.2, r2.2)

/-- The first variable returned by `twoVarsDefault` (Python identity 0). -/
def sampleVar1 : MeshVariable := ⟨0, 0, .NODE, [0, 0], 1, .DOUBLE⟩

/-- The second variable returned by `twoVarsDefault` (Python identity 1,
identical descriptive fields and owning mesh). -/
def sampleVar2 : MeshVariable := ⟨1, 0, .NODE, [0, 0], 1, .DOUBLE⟩

/-- A variable bound to `testMesh2B` (Python identity 0). -/
def sampleVar2B : MeshVariable := ⟨0, 1, .NODE, [0, 0], 1, .DOUBLE⟩

/-- The block of `testMesh` after one default `create_variable`: a NODE
variable of depth 1 on a 10 x 10 box stores an 11 x 11 float64 array. -/
def oneVarBlock : MeshBlock :=
  ⟨testBox, testGeom, true, [sampleVar1], [(0, .single ⟨[11, 11], .DOUBLE⟩)]⟩

/-- The value of `testMesh.create_variable`'s mesh result for the default
arguments (`.NODE`, scalar width 0, depth 1, `.DOUBLE`, all levels). -/
def oneVarMesh : Mesh :=
  ⟨0, [testBox], testBox,
   ⟨[⟨0, 10⟩, ⟨0, 10⟩], [⟨10, 10⟩, ⟨10, 10⟩]⟩,
   [⟨0, [sampleVar1], [oneVarBlock]⟩], [sampleVar1], 1⟩

/-- The block of `testMesh` after two identical default `create_variable`
calls: both variables have their own 11 x 11 array, keyed by their own
Python identity. -/
def twoVarBlock : MeshBlock :=
  ⟨testBox, testGeom, true, [sampleVar1, sampleVar2],
   [(0, .single ⟨[11, 11], .DOUBLE⟩), (1, .single ⟨[11, 11], .DOUBLE⟩)]⟩

/-- The mesh after the two identical default `create_variable` calls of
`twoVarsDefault`. -/
def twoVarMesh : Mesh :=
  ⟨0, [testBox], testBox,
   ⟨[⟨0, 10⟩, ⟨0, 10⟩], [⟨10, 10⟩, ⟨10, 10⟩]⟩,
   [⟨0, [sampleVar1, sampleVar2], [twoVarBlock]⟩], [sampleVar1, sampleVar2], 2⟩

/-! ## General lemmas about the `Except` plumbing -/

theorem bindOk {α β : Type} (a : Except PyError α) (f : α → Except PyError β) (c : β) :
    (a >>= f) = .ok c ↔ ∃ b, a = .ok b ∧ f b = .ok c := by
  cases a <;> simp [Bind.bind, Except.bind]

theorem mapExcept_cons_ok {α β : Type} (f : α → Except PyError β) (x : α)
    (xs : List α) (ys : List β) :
    mapExcept f (x :: xs) = .ok ys ↔
      ∃ y ys2, f x = .ok y ∧ mapExcept f xs = .ok ys2 ∧ ys = y :: ys2 := by
  cases hfx : f x <;>
    simp [mapExcept, Bind.bind, Except.bind, hfx]
  cases hrest : mapExcept f xs <;> simp [hrest] <;> tauto

theorem mapExcept_ok_forall₂ {α β : Type} (f : α → Except PyError β) :
    ∀ (xs : List α) (ys : List β), mapExcept f xs = .ok ys →
      List.Forall₂ (fun x y => f x = .ok y) xs ys := by
  intro xs
  induction xs with
  | nil =>
    intro ys h
    simp [mapExcept] at h
    simp [h.symm]
  | cons x xs ih =>
    intro ys h
    rw [mapExcept_cons_ok] at h
    obtain ⟨y, ys2, hfx, hrest, rfl⟩ := h
    exact List.Forall₂.cons hfx (ih ys2 hrest)

theorem foldExcept_ok_induct {α β : Type} {P : β → Prop} (f : β → α → Except PyError β) :
    ∀ (xs : List α) (acc res : β), foldExcept f acc xs = .ok res → P acc →
      (∀ b x b2, x ∈ xs → P b → f b x = .ok b2 → P b2) → P res := by
  intro xs
  induction xs with
  | nil =>
    intro acc res h hP _
    simp [foldExcept] at h
    simpa [h.symm]
  | cons x xs ih =>
    intro acc res h hP hstep
    unfold foldExcept at h
    rw [bindOk] at h
    obtain ⟨acc2, hstep1, hrest⟩ := h
    exact ih acc2 res hrest (hstep acc x acc2 (by simp) hP hstep1)
      (fun b z b2 hz => hstep b z b2 (by simp [hz]))

/-! ## Inversion lemmas for the mesh operations -/

theorem MeshLevel.init_ok_elim_level (n : Int) (boxes : List Box) (g : CartesianGeometry)
    (lvl : MeshLevel) (h : MeshLevel.init n boxes g = .ok lvl) :
    lvl.level_number = n ∧ lvl.variableList = [] ∧
      MeshLevel.generate_blocks boxes g = .ok lvl.blocks := by
  unfold MeshLevel.init at h
  by_cases hn : n < 0
  · simp [hn] at h
  · simp only [hn, if_false] at h
    rw [bindOk] at h
    obtain ⟨blks, hgen, hok⟩ := h
    cases hok
    exact ⟨rfl, rfl, hgen⟩

theorem MeshLevel.add_variable_ok_elim (lvl : MeshLevel) (v : MeshVariable)
    (lvl2 : MeshLevel) (h : lvl.add_variable v = .ok lvl2) :
    lvl2.level_number = lvl.level_number ∧
      lvl2.variableList = (if lvl.variableList.any (fun u => u.pyEq v) then
        lvl.variableList else lvl.variableList ++ [v]) ∧
      mapExcept (fun blk => blk.add_variable v) lvl.blocks = .ok lvl2.blocks := by
  unfold MeshLevel.add_variable at h
  rw [bindOk] at h
  obtain ⟨blks, hmap, hok⟩ := h
  cases hok
  exact ⟨rfl, rfl, hmap⟩

theorem Mesh.add_level_ok_elim (m : Mesh) (boxes : List Box) (g : CartesianGeometry)
    (m2 : Mesh) (h : m.add_level boxes g = .ok m2) :
    ∃ lvl, m2 = { m with levels := m.levels ++ [lvl] } ∧
      lvl.level_number = (m.num_levels : Int) := by
  unfold Mesh.add_level at h
  rw [bindOk] at h
  obtain ⟨lvl0, hinit, h⟩ := h
  rw [bindOk] at h
  obtain ⟨lvl2, hfold, hok⟩ := h
  cases hok
  refine ⟨lvl2, rfl, ?_⟩
  have h0 := (MeshLevel.init_ok_elim_level _ _ _ _ hinit).1
  have hpres : lvl2.level_number = lvl0.level_number := by
    refine foldExcept_ok_induct (P := fun l => l.level_number = lvl0.level_number)
      _ _ _ _ hfold rfl ?_
    intro b x b2 _ hb hstep
    rw [(MeshLevel.add_variable_ok_elim _ _ _ hstep).1, hb]
  rw [hpres, h0]
  rfl

theorem Mesh.remove_level_ok_elim (m : Mesh) (lvl : MeshLevel) (m2 : Mesh)
    (h : m.remove_level = .ok (lvl, m2)) :
    2 ≤ m.levels.length ∧ m.levels.getLast? = some lvl ∧
      m2 = { m with levels := m.levels.dropLast } := by
  unfold Mesh.remove_level at h
  by_cases h1 : m.num_levels == 1
  · simp [h1] at h
  · simp only [h1, if_false] at h
    cases hlast : m.levels.getLast? with
    | none =>
      simp [hlast] at h
    | some l =>
      simp only [hlast] at h
      cases h
      refine ⟨?_, rfl, rfl⟩
      have hne : m.levels ≠ [] := by
        intro hnil
        rw [hnil] at hlast
        simp at hlast
      have hlen : m.levels.length ≠ 1 := by
        simpa [Mesh.num_levels] using h1
      have : 1 ≤ m.levels.length := List.length_pos.mpr hne
      omega

theorem Mesh.init_ok_elim_mesh (meshId : Nat) (domain : List Box) (g : CartesianGeometry)
    (m : Mesh) (h : Mesh.init meshId domain g = .ok m) :
    ∃ bbox geom lvl,
      m = ⟨meshId, domain, bbox, geom, [lvl], [], 0⟩ ∧ lvl.level_number = 0 := by
  unfold Mesh.init at h
  cases domain with
  | nil => simp at h
  | cons d0 rest =>
    rw [bindOk] at h
    obtain ⟨bbox, hbb, h⟩ := h
    rw [bindOk] at h
    obtain ⟨geom, hgeom, h⟩ := h
    obtain ⟨lvl, hm, hln⟩ := Mesh.add_level_ok_elim _ _ _ _ h
    exact ⟨bbox, geom, lvl, by simp [hm], by simpa [Mesh.num_levels] using hln⟩

/-! ## Evaluation of the fixtures -/

theorem testMesh_init : Mesh.init 0 [testBox] testGeom = .ok testMesh := by decide

theorem testMesh2B_init :
    Mesh.init 1 [testBox, testBoxB] testGeom = .ok testMesh2B := by decide

theorem testMeshTwoLvl_eval :
    testMesh.add_level [testBoxL1] testGeom = .ok testMeshTwoLvl := by decide

/-! ## C10: the Mesh.domain property -/

/-- C10: for a mesh constructed from exactly one domain box, the `domain`
property returns the `Box` itself (`DomainView.singleBox`); for a mesh
constructed from more than one box, it returns a tuple of Boxes
(`DomainView.boxTuple`).  The `DomainView` codomain of `Mesh.domain` has no
list alternative, so a list is never returned. -/
theorem C10_domain_box_or_tuple (meshId : Nat) (domain : List Box)
    (g : CartesianGeometry) (m : Mesh) (h : Mesh.init meshId domain g = .ok m) :
    (∀ b, domain = [b] → m.domain = DomainView.singleBox b) ∧
    (1 < domain.length → m.domain = DomainView.boxTuple domain) := by
  obtain ⟨bbox, geom, lvl, rfl, -⟩ := Mesh.init_ok_elim_mesh _ _ _ _ h
  constructor
  · rintro b rfl
    rfl
  · intro hlen
    match domain, hlen with
    | b0 :: b1 :: rest, _ => rfl

/-- Witness for C10: a single-box mesh yields the box itself; a two-box mesh
yields the tuple of both boxes. -/
theorem C10_witness :
    testMesh.domain = DomainView.singleBox testBox ∧
    testMesh2B.domain = DomainView.boxTuple [testBox, testBoxB] :=
  ⟨(C10_domain_box_or_tuple 0 [testBox] testGeom testMesh testMesh_init).1
      testBox rfl,
   (C10_domain_box_or_tuple 1 [testBox, testBoxB] testGeom testMesh2B
      testMesh2B_init).2 (by decide)⟩

/-! ## C4: Mesh.remove_level -/

/-- C4: `remove_level` on a single-level mesh fails with `RuntimeError` (the
spec's `InvalidState`); the source raises before touching any state, so the
mesh is unchanged.  On a mesh with at least two levels it removes exactly the
last level, returns it, leaves every other level and every other field
unchanged, and decrements `num_levels` by one; under the level-numbering
invariant the removed level is the highest-numbered one,
`num_levels - 1` (for a 2-level mesh, the level-1 `MeshLevel`). -/
theorem C4_remove_level (m : Mesh) :
    (m.num_levels = 1 →
      m.remove_level =
        .error (.runtimeError ("the coarsest MeshLevel cannot be removed from Mesh"))) ∧
    (2 ≤ m.num_levels → ∃ lvl m2,
      m.remove_level = .ok (lvl, m2) ∧
      m.levels = m2.levels ++ [lvl] ∧
      m2.num_levels = m.num_levels - 1 ∧
      (∀ i, i < m2.num_levels → m2.levels[i]? = m.levels[i]?) ∧
      m2.domainBoxes = m.domainBoxes ∧ m2.bounding_box = m.bounding_box ∧
      m2.geometry = m.geometry ∧ m2.variableList = m.variableList ∧
      m2.nextVarId = m.nextVarId ∧
      (levelNumbersOK m → lvl.level_number = (m.num_levels : Int) - 1)) := by
  constructor
  · intro h1
    unfold Mesh.remove_level
    simp [h1]
  · intro h2
    rw [Mesh.num_levels] at h2
    have hne : m.levels ≠ [] := by
      intro hnil
      rw [hnil] at h2
      simp at h2
    have hlast := List.getLast?_eq_getLast m.levels hne
    refine ⟨m.levels.getLast hne, { m with levels := m.levels.dropLast }, ?_, ?_, ?_, ?_,
      rfl, rfl, rfl, rfl, rfl, ?_⟩
    · unfold Mesh.remove_level
      have hne1 : ¬ (m.num_levels == 1) = true := by
        simp [Mesh.num_levels]
        omega
      rw [if_neg hne1, hlast]
    · exact (List.dropLast_append_getLast hne).symm
    · simp [Mesh.num_levels]
    · intro i hi
      simp only [Mesh.num_levels, List.length_dropLast] at hi
      rw [List.getElem?_dropLast, if_pos hi]
    · intro hok
      have hlen1 : m.levels.length - 1 < m.levels.length := by omega
      have hnum := hok.2 (m.levels.length - 1) hlen1
      rw [List.getLast_eq_getElem, hnum]
      simp only [Mesh.num_levels]
      omega

/-- Witness for C4: on the concrete 2-level mesh, `remove_level` succeeds
and leaves a single-level mesh; the single-level branch fires on `testMesh`. -/
theorem C4_witness :
    (testMesh.remove_level =
      .error (.runtimeError ("the coarsest MeshLevel cannot be removed from Mesh"))) ∧
    ∃ lvl m2, testMeshTwoLvl.remove_level = .ok (lvl, m2) ∧
      testMeshTwoLvl.levels = m2.levels ++ [lvl] ∧
      m2.num_levels = testMeshTwoLvl.num_levels - 1 ∧
      (∀ i, i < m2.num_levels → m2.levels[i]? = testMeshTwoLvl.levels[i]?) ∧
      m2.domainBoxes = testMeshTwoLvl.domainBoxes ∧
      m2.bounding_box = testMeshTwoLvl.bounding_box ∧
      m2.geometry = testMeshTwoLvl.geometry ∧
      m2.variableList = testMeshTwoLvl.variableList ∧
      m2.nextVarId = testMeshTwoLvl.nextVarId ∧
      (levelNumbersOK testMeshTwoLvl →
        lvl.level_number = (testMeshTwoLvl.num_levels : Int) - 1) :=
  ⟨(C4_remove_level testMesh).1 (by decide),
   (C4_remove_level testMeshTwoLvl).2 (by decide)⟩

/-! ## C8: compute_geometry on the reference box is the identity -/

theorem Box.valid_elim_box (b : Box) (h : b.valid = true) :
    b.lower ≠ [] ∧ b.lower.length = b.upper.length ∧ allLe b.lower b.upper = true := by
  unfold Box.valid at h
  simp only [Bool.and_eq_true, Bool.not_eq_true', beq_iff_eq] at h
  exact ⟨List.isEmpty_eq_false.mp h.1.1, h.1.2, h.2⟩

theorem CartesianGeometry.valid_elim_geometry (g : CartesianGeometry) (h : g.valid = true) :
    g.x_lower.length = g.x_upper.length ∧ allLt g.x_lower g.x_upper = true ∧
      g.x_lower ≠ [] := by
  unfold CartesianGeometry.valid at h
  simp only [Bool.and_eq_true, Bool.not_eq_true', beq_iff_eq] at h
  exact ⟨h.1.1, h.1.2, List.isEmpty_eq_false.mp h.2⟩

theorem CartesianGeometry.init_ok_of_geometry (a b : List Frac) (hlen : a.length = b.length)
    (hlt : allLt a b = true) (hne : a ≠ []) :
    CartesianGeometry.init a b = .ok ⟨a, b⟩ := by
  unfold CartesianGeometry.init
  simp [hlen, hlt, hne]

theorem cornerShift_length (xs dx : List Frac) (a b : List Int) :
    (cornerShift xs dx a b).length =
      min (min xs.length dx.length) (min a.length b.length) := by
  simp [cornerShift]

/-- Shifting by `dx * 0` (the `box = reference_box` case) yields a vector
value-equal to the original. -/
theorem cornerShift_self_valEq :
    ∀ (xs dx : List Frac) (a : List Int), xs.length ≤ dx.length →
      xs.length ≤ a.length → vecValEq (cornerShift xs dx a a) xs = true := by
  intro xs
  induction xs with
  | nil => intro dx a _ _; rfl
  | cons x xs ih =>
    intro dx a h1 h2
    cases dx with
    | nil => simp at h1
    | cons d dx =>
      cases a with
      | nil => simp at h2
      | cons i a =>
        simp only [List.length_cons, Nat.add_le_add_iff_right] at h1 h2
        have htail := ih dx a h1 h2
        unfold vecValEq at htail ⊢
        simp only [cornerShift, List.zip_cons_cons, List.zipWith_cons_cons,
          List.length_cons, Bool.and_eq_true, beq_iff_eq, List.all_cons] at htail ⊢
        refine ⟨?_, ?_, htail.2⟩
        · have := htail.1
          simp only [cornerShift] at this
          omega
        · simp only [Frac.valEq, Frac.add, Frac.mul, Frac.ofInt, beq_iff_eq]
          ring

/-- Shifting both corner vectors by the same `dx * 0` preserves the strict
componentwise order, provided the `dx` denominators are positive. -/
theorem cornerShift_self_allLt :
    ∀ (xl xu dx : List Frac) (a b : List Int), allLt xl xu = true →
      (∀ f ∈ dx, 0 < f.den) →
      allLt (cornerShift xl dx a a) (cornerShift xu dx b b) = true := by
  intro xl
  induction xl with
  | nil => intro xu dx a b _ _; simp [cornerShift, allLt]
  | cons x xl ih =>
    intro xu dx a b hlt hdx
    cases xu with
    | nil => simp [cornerShift, allLt]
    | cons y xu =>
      cases dx with
      | nil => simp [cornerShift, allLt]
      | cons d dx =>
        cases a with
        | nil => simp [cornerShift, allLt]
        | cons i a =>
          cases b with
          | nil => simp [cornerShift, allLt]
          | cons j b =>
            unfold allLt at hlt ⊢
            simp only [List.zip_cons_cons, List.all_cons, Bool.and_eq_true] at hlt
            have htail := ih xu dx a b hlt.2 (fun f hf => hdx f (by simp [hf]))
            simp only [cornerShift, List.zip_cons_cons, List.zipWith_cons_cons,
              List.all_cons, Bool.and_eq_true]
            refine ⟨?_, by simpa [cornerShift, allLt] using htail⟩
            have hd : 0 < d.den := hdx d (by simp)
            have hxy : x.num * y.den < y.num * x.den := by
              simpa [Frac.lt] using hlt.1
            simp only [Frac.lt, Frac.add, Frac.mul, Frac.ofInt, decide_eq_true_eq]
            nlinarith [mul_pos hd hd]

/-- The denominators of `compute_dx` are positive for well-formed inputs. -/
theorem compute_dx_den_pos :
    ∀ (xu xl : List Frac) (ru rl : List Int), fracsWF xl → fracsWF xu →
      allLe rl ru = true →
      ∀ f ∈ List.zipWith (fun s c => Frac.div s (Frac.ofInt c))
          (List.zipWith (fun u l => Frac.sub u l) xu xl)
          (List.zipWith (fun u l => u - l + 1) ru rl), 0 < f.den := by
  intro xu
  induction xu with
  | nil => intro xl ru rl _ _ _ f hf; simp at hf
  | cons y xu ih =>
    intro xl ru rl hxl hxu hle f hf
    cases xl with
    | nil => simp at hf
    | cons x xl =>
      cases ru with
      | nil => simp at hf
      | cons j ru =>
        cases rl with
        | nil => simp at hf
        | cons i rl =>
          simp only [List.zipWith_cons_cons, List.mem_cons] at hf
          unfold allLe at hle
          simp only [List.zip_cons_cons, List.all_cons, Bool.and_eq_true,
            decide_eq_true_eq] at hle
          cases hf with
          | inl hf =>
            subst hf
            simp only [Frac.div, Frac.sub, Frac.ofInt]
            have h1 : 0 < x.den := hxl x (by simp)
            have h2 : 0 < y.den := hxu y (by simp)
            have h3 : 0 < j - i + 1 := by omega
            positivity
          | inr hf =>
            exact ih xl ru rl (fun f hf2 => hxl f (by simp [hf2]))
              (fun f hf2 => hxu f (by simp [hf2])) (by simpa [allLe] using hle.2) f hf

/-- C8: for every well-formed `CartesianGeometry` `g` and box `r` of matching
dimensionality, `g.compute_geometry r r` succeeds and returns a geometry
equal to `g` itself in the sense of `CartesianGeometry.__eq__` (same
`num_dimensions`, same `x_lower` and `x_upper` values). -/
theorem C8_compute_geometry_identity (g : CartesianGeometry) (r : Box)
    (hg : g.valid = true) (hwf : g.wfDen) (hr : r.valid = true)
    (hdim : r.num_dimensions = g.num_dimensions) :
    ∃ g2, g.compute_geometry r r = .ok g2 ∧ CartesianGeometry.eq g2 g = true := by
  obtain ⟨hglen, hglt, hgne⟩ := CartesianGeometry.valid_elim_geometry g hg
  obtain ⟨hrne, hrlen, hrle⟩ := Box.valid_elim_box r hr
  obtain ⟨hdl, hdu⟩ := hwf
  rw [Box.num_dimensions, CartesianGeometry.num_dimensions] at hdim
  unfold CartesianGeometry.compute_geometry CartesianGeometry.compute_dx
    CartesianGeometry.shape Box.shape
  set dx := List.zipWith (fun s c => Frac.div s (Frac.ofInt c))
      (List.zipWith (fun u l => Frac.sub u l) g.x_upper g.x_lower)
      (List.zipWith (fun u l => u - l + 1) r.upper r.lower) with hdxdef
  have hdxpos : ∀ f ∈ dx, 0 < f.den := by
    rw [hdxdef]
    exact compute_dx_den_pos g.x_upper g.x_lower r.upper r.lower hdl hdu hrle
  have hdxlen : dx.length = g.x_lower.length := by
    rw [hdxdef]
    simp only [List.length_zipWith]
    omega
  have hlow := cornerShift_self_valEq g.x_lower dx r.lower (by omega) (by omega)
  have hupp := cornerShift_self_valEq g.x_upper dx r.upper (by omega) (by omega)
  have hlt := cornerShift_self_allLt g.x_lower g.x_upper dx r.lower r.upper hglt hdxpos
  have hlenl := cornerShift_length g.x_lower dx r.lower r.lower
  have hlenu := cornerShift_length g.x_upper dx r.upper r.upper
  have hne2 : 0 < g.x_lower.length := List.length_pos.mpr hgne
  have hlenll : (cornerShift g.x_lower dx r.lower r.lower).length =
      g.x_lower.length := by omega
  have hlenuu : (cornerShift g.x_upper dx r.upper r.upper).length =
      g.x_lower.length := by omega
  have hnn : cornerShift g.x_lower dx r.lower r.lower ≠ [] := by
    apply List.ne_nil_of_length_pos
    omega
  have hinit := CartesianGeometry.init_ok_of_geometry
    (cornerShift g.x_lower dx r.lower r.lower)
    (cornerShift g.x_upper dx r.upper r.upper) (by omega) hlt hnn
  refine ⟨_, hinit, ?_⟩
  unfold CartesianGeometry.eq CartesianGeometry.num_dimensions
  simp only [Bool.and_eq_true, beq_iff_eq]
  refine ⟨⟨?_, hlow⟩, hupp⟩
  omega

/-- Witness for C8 at a concrete geometry and reference box. -/
theorem C8_witness :
    ∃ g2, testGeom.compute_geometry testBox testBox = .ok g2 ∧
      CartesianGeometry.eq g2 testGeom = true :=
  C8_compute_geometry_identity testGeom testBox (by decide)
    ⟨by intro f hf; simp [testGeom] at hf; simp [hf],
     by intro f hf; simp [testGeom] at hf; simp [hf]⟩ (by decide) (by decide)

/-! ## C7: MeshVariable.box with and without halo -/

theorem Box.init_ok_of_box (a b : List Int) (hne : a ≠ []) (hlen : a.length = b.length)
    (hle : allLe a b = true) : Box.init a b = .ok ⟨a, b⟩ := by
  unfold Box.init
  have hbne : b ≠ [] := by
    intro hb
    rw [hb] at hlen
    simp at hlen
    exact hne hlen
  simp [hne, hbne, hlen, hle]

/-- Expanding `[lower, upper]` to `[lower - w, upper + w]` componentwise
preserves componentwise order for non-negative widths. -/
theorem allLe_expand :
    ∀ (lo up ms : List Int), allLe lo up = true → (∀ w ∈ ms, 0 ≤ w) →
      allLe (List.zipWith (fun l w => l - w) lo ms)
        (List.zipWith (fun u w => u + w) up ms) = true := by
  intro lo
  induction lo with
  | nil => intro up ms _ _; rfl
  | cons l lo ih =>
    intro up ms hle hms
    cases up with
    | nil => simp [allLe]
    | cons u up =>
      cases ms with
      | nil => rfl
      | cons w ms =>
        unfold allLe at hle ⊢
        simp only [List.zip_cons_cons, List.all_cons, Bool.and_eq_true,
          decide_eq_true_eq, List.zipWith_cons_cons] at hle ⊢
        have hw : 0 ≤ w := hms w (by simp)
        refine ⟨by omega, ?_⟩
        have := ih up ms hle.2 (fun x hx => hms x (by simp [hx]))
        simpa [allLe] using this

/-- C7: for a variable with componentwise non-negative `max_stencil_width`
of the block's dimensionality, `box(block, with_halo=True)` returns the Box
whose lower corner is `block.box.lower - max_stencil_width` and whose upper
corner is `block.box.upper + max_stencil_width` (componentwise), while
`box(block, with_halo=False)` returns a Box equal to `block.box`. -/
theorem C7_variable_box_halo (blk : MeshBlock) (v : MeshVariable)
    (hbox : blk.box.valid = true)
    (hlen : v.max_stencil_width.length = blk.box.lower.length)
    (hnn : ∀ w ∈ v.max_stencil_width, 0 ≤ w) :
    v.box blk true =
      .ok ⟨List.zipWith (fun l w => l - w) blk.box.lower v.max_stencil_width,
           List.zipWith (fun u w => u + w) blk.box.upper v.max_stencil_width⟩ ∧
    v.box blk false = .ok blk.box := by
  obtain ⟨hne, hblen, hble⟩ := Box.valid_elim_box blk.box hbox
  constructor
  · unfold MeshVariable.box MeshBlock.lower MeshBlock.upper
    simp only [if_true]
    apply Box.init_ok_of_box
    · have hlp : 0 < blk.box.lower.length := List.length_pos.mpr hne
      apply List.ne_nil_of_length_pos
      simp only [List.length_zipWith]
      omega
    · simp only [List.length_zipWith]
      omega
    · exact allLe_expand blk.box.lower blk.box.upper v.max_stencil_width hble hnn
  · rfl

/-- Witness for C7 at a concrete block and variable with stencil widths 1
and 2. -/
theorem C7_witness :
    (MeshVariable.mk 0 0 .CELL [1, 2] 1 .DOUBLE).box
        (MeshBlock.mk testBox testGeom true [] []) true =
      .ok ⟨List.zipWith (fun l w => l - w) testBox.lower [1, 2],
           List.zipWith (fun u w => u + w) testBox.upper [1, 2]⟩ ∧
    (MeshVariable.mk 0 0 .CELL [1, 2] 1 .DOUBLE).box
        (MeshBlock.mk testBox testGeom true [] []) false = .ok testBox :=
  C7_variable_box_halo (MeshBlock.mk testBox testGeom true [] [])
    (MeshVariable.mk 0 0 .CELL [1, 2] 1 .DOUBLE) (by decide) (by decide) (by decide)

/-! ## C5: MeshVariable constructor validation (corrected) -/

/-- C5 counterexample: the `MeshVariable` constructor does not reject
`depth = 0` or a negative `max_stencil_width`; with mesh dimensionality 2 it
accepts both at once and stores them as given, contradicting the claim that
construction fails with `InvalidArgument` for non-positive depth or negative
stencil width. -/
theorem C5_counterexample :
    MeshVariable.init 0 0 2 .CELL (.scalar (-1)) 0 .DOUBLE =
      .ok ⟨0, 0, .CELL, [-1, -1], 0, .DOUBLE⟩ := by decide

/-- C5 amended: the constructor validates only types and shape — it fails
with `ValueError` (the spec's `InvalidArgument`) exactly when
`max_stencil_width` is an empty vector, and otherwise succeeds for every
integer `depth` (including zero and negative values) and every integer
stencil width (including negative values), storing the fields as given, with
a scalar width broadcast to `num_dimensions` components. -/
theorem C5_constructor_validation (meshId varId num_dimensions : Nat)
    (location : Location) (depth : Int) (precision : Precision) :
    (∀ w : Int, MeshVariable.init meshId varId num_dimensions location
        (.scalar w) depth precision =
      .ok ⟨varId, meshId, location, List.replicate num_dimensions w, depth, precision⟩) ∧
    (∀ ws : List Int, ws ≠ [] → MeshVariable.init meshId varId num_dimensions location
        (.vector ws) depth precision =
      .ok ⟨varId, meshId, location, ws, depth, precision⟩) ∧
    MeshVariable.init meshId varId num_dimensions location (.vector []) depth precision =
      .error (.valueError ("when max_stencil_width is an array, it should not be empty")) := by
  refine ⟨fun w => rfl, fun ws hws => ?_, rfl⟩
  unfold MeshVariable.init
  simp [hws]

/-- Witness for C5's amended statement: a non-empty vector width `[-3]` with
`depth = -2` is accepted and stored. -/
theorem C5_witness :
    MeshVariable.init 0 0 1 .NODE (.vector [-3]) (-2) .SINGLE =
      .ok ⟨0, 0, .NODE, [-3], -2, .SINGLE⟩ :=
  (C5_constructor_validation 0 0 1 .NODE (-2) .SINGLE).2.1 [-3] (by decide)

/-! ## C6: refine then coarsen round-trip -/

theorem fdiv_mul_cancel_self (l f : Int) (hf : 0 < f) : (l * f).fdiv f = l := by
  rw [Int.fdiv_eq_ediv _ (by omega), Int.mul_ediv_cancel _ (by omega : f ≠ 0)]

theorem fdiv_refine_upper (u f : Int) (hf : 0 < f) : ((u + 1) * f - 1).fdiv f = u := by
  rw [Int.fdiv_eq_ediv _ (by omega)]
  have h : (u + 1) * f - 1 = f - 1 + u * f := by ring
  rw [h, Int.add_mul_ediv_right _ _ (by omega : f ≠ 0),
    Int.ediv_eq_zero_of_lt (by omega) (by omega)]
  ring

theorem Factor.validate_ok_length (factor : Factor) (nd : Nat) (f : List Int)
    (h : factor.validate nd = .ok f) : f.length = nd := by
  cases factor with
  | scalar w =>
    unfold Factor.validate at h
    cases h
    simp
  | vector ws =>
    unfold Factor.validate at h
    by_cases he : ws.isEmpty
    · simp [he] at h
    · simp only [he, if_false, Bool.false_eq_true] at h
      by_cases hl : ws.length != nd
      · simp [hl] at h
      · simp only [hl, if_false, Bool.false_eq_true] at h
        cases h
        simpa using hl

/-- Componentwise `(l * f) // f = l` for positive factors. -/
theorem zip_refine_lower_cancel :
    ∀ (xs f : List Int), (∀ x ∈ f, 0 < x) → xs.length = f.length →
      List.zipWith (fun a fi => Int.fdiv a fi)
        (List.zipWith (fun l fi => l * fi) xs f) f = xs := by
  intro xs
  induction xs with
  | nil => intro f _ hlen; simp
  | cons x xs ih =>
    intro f hpos hlen
    cases f with
    | nil => simp at hlen
    | cons fi f =>
      simp only [List.zipWith_cons_cons, List.cons.injEq]
      refine ⟨fdiv_mul_cancel_self x fi (hpos fi (by simp)), ?_⟩
      exact ih f (fun y hy => hpos y (by simp [hy])) (by simpa using hlen)

/-- Componentwise `((u + 1) * f - 1) // f = u` for positive factors. -/
theorem zip_refine_upper_cancel :
    ∀ (xs f : List Int), (∀ x ∈ f, 0 < x) → xs.length = f.length →
      List.zipWith (fun a fi => Int.fdiv a fi)
        (List.zipWith (fun u fi => (u + 1) * fi - 1) xs f) f = xs := by
  intro xs
  induction xs with
  | nil => intro f _ hlen; simp
  | cons x xs ih =>
    intro f hpos hlen
    cases f with
    | nil => simp at hlen
    | cons fi f =>
      simp only [List.zipWith_cons_cons, List.cons.injEq]
      refine ⟨fdiv_refine_upper x fi (hpos fi (by simp)), ?_⟩
      exact ih f (fun y hy => hpos y (by simp [hy])) (by simpa using hlen)

/-- The refined corners satisfy `lower * f <= (upper + 1) * f - 1`
componentwise for positive factors. -/
theorem allLe_refine :
    ∀ (lo up f : List Int), allLe lo up = true → (∀ x ∈ f, 0 < x) →
      allLe (List.zipWith (fun l fi => l * fi) lo f)
        (List.zipWith (fun u fi => (u + 1) * fi - 1) up f) = true := by
  intro lo
  induction lo with
  | nil => intro up f _ _; rfl
  | cons l lo ih =>
    intro up f hle hpos
    cases up with
    | nil => simp [allLe]
    | cons u up =>
      cases f with
      | nil => rfl
      | cons fi f =>
        unfold allLe at hle ⊢
        simp only [List.zip_cons_cons, List.all_cons, Bool.and_eq_true,
          decide_eq_true_eq, List.zipWith_cons_cons] at hle ⊢
        have hfi : 0 < fi := hpos fi (by simp)
        refine ⟨by nlinarith [hle.1], ?_⟩
        have := ih up f hle.2 (fun y hy => hpos y (by simp [hy]))
        simpa [allLe] using this

/-- C6: refining a valid box by a positive factor (scalar, or vector of the
box's dimensionality) and coarsening the result by the same factor returns a
singleton list holding exactly the original box.  (The claim's
shape-divisibility hypothesis is carried along; the round-trip in fact holds
without it, which only strengthens the claim.) -/
theorem C6_refine_coarsen_roundtrip (b : Box) (factor : Factor) (f : List Int)
    (hb : b.valid = true)
    (hv : factor.validate b.num_dimensions = .ok f)
    (hpos : ∀ x ∈ f, 0 < x)
    (hdiv : ∀ p ∈ List.zip b.shape f, p.2 ∣ p.1) :
    ∃ rb, Box.refine_boxes [b] factor = .ok [rb] ∧
      Box.coarsen_boxes [rb] factor = .ok [b] := by
  clear hdiv
  obtain ⟨hne, hblen, hble⟩ := Box.valid_elim_box b hb
  have hflen : f.length = b.lower.length := Factor.validate_ok_length factor _ f hv
  have hlp : 0 < b.lower.length := List.length_pos.mpr hne
  have hrlow : (List.zipWith (fun l fi => l * fi) b.lower f).length = b.lower.length := by
    simp only [List.length_zipWith]
    omega
  have hrupp : (List.zipWith (fun u fi => (u + 1) * fi - 1) b.upper f).length =
      b.lower.length := by
    simp only [List.length_zipWith]
    omega
  have hinit : Box.init (List.zipWith (fun l fi => l * fi) b.lower f)
      (List.zipWith (fun u fi => (u + 1) * fi - 1) b.upper f) =
      .ok ⟨List.zipWith (fun l fi => l * fi) b.lower f,
           List.zipWith (fun u fi => (u + 1) * fi - 1) b.upper f⟩ :=
    Box.init_ok_of_box _ _ (List.ne_nil_of_length_pos (by omega)) (by omega)
      (allLe_refine b.lower b.upper f hble hpos)
  refine ⟨⟨List.zipWith (fun l fi => l * fi) b.lower f,
           List.zipWith (fun u fi => (u + 1) * fi - 1) b.upper f⟩, ?_, ?_⟩
  · unfold Box.refine_boxes Box.checkBoxesDims
    simp only [List.all_nil, Bool.not_true, Bool.false_eq_true, if_false,
      Bool.not_false, if_true]
    rw [bindOk]
    refine ⟨b.num_dimensions, by simp, ?_⟩
    rw [bindOk]
    refine ⟨f, hv, ?_⟩
    unfold mapExcept
    rw [bindOk]
    exact ⟨⟨List.zipWith (fun l fi => l * fi) b.lower f,
            List.zipWith (fun u fi => (u + 1) * fi - 1) b.upper f⟩, hinit, rfl⟩
  · unfold Box.coarsen_boxes Box.checkBoxesDims
    simp only [List.all_nil, Bool.not_true, Bool.false_eq_true, if_false,
      Bool.not_false, if_true]
    rw [bindOk]
    have hnd : Box.num_dimensions ⟨List.zipWith (fun l fi => l * fi) b.lower f,
        List.zipWith (fun u fi => (u + 1) * fi - 1) b.upper f⟩ =
        b.num_dimensions := by
      unfold Box.num_dimensions
      simpa using hrlow
    refine ⟨b.num_dimensions, by simpa using hnd, ?_⟩
    rw [bindOk]
    refine ⟨f, hv, ?_⟩
    unfold mapExcept
    rw [bindOk]
    refine ⟨b, ?_, rfl⟩
    unfold Box.coarsenOne
    simp only
    rw [zip_refine_lower_cancel b.lower f hpos (by omega),
      zip_refine_upper_cancel b.upper f hpos (by omega)]
    exact Box.init_ok_of_box _ _ hne hblen hble

/-- Witness for C6: a 6 x 4 box refined then coarsened by the vector factor
`[3, 2]` (for which its shape is exactly divisible) comes back unchanged. -/
theorem C6_witness :
    ∃ rb, Box.refine_boxes [Box.mk [0, 0] [5, 3]] (.vector [3, 2]) = .ok [rb] ∧
      Box.coarsen_boxes [rb] (.vector [3, 2]) = .ok [Box.mk [0, 0] [5, 3]] :=
  C6_refine_coarsen_roundtrip (Box.mk [0, 0] [5, 3]) (.vector [3, 2]) [3, 2]
    (by decide) (by decide) (by decide) (by decide)

/-! ## C3: the level-hierarchy invariant -/

theorem levelNumbersOK_append (m : Mesh) (lvl : MeshLevel)
    (hok : levelNumbersOK m) (hn : lvl.level_number = (m.num_levels : Int)) :
    levelNumbersOK { m with levels := m.levels ++ [lvl] } := by
  obtain ⟨hlen, hnums⟩ := hok
  constructor
  · simp only [List.length_append]
    omega
  · intro i hi
    simp only [List.length_append, List.length_cons, List.length_nil] at hi
    by_cases hcase : i < m.levels.length
    · rw [List.getElem_append_left hcase]
      exact hnums i hcase
    · have hieq : i = m.levels.length := by omega
      subst hieq
      rw [List.getElem_append_right (by omega)]
      simp [hn, Mesh.num_levels]

theorem levelNumbersOK_dropLast (m : Mesh) (hok : levelNumbersOK m)
    (hlen : 2 ≤ m.levels.length) :
    levelNumbersOK { m with levels := m.levels.dropLast } := by
  obtain ⟨_, hnums⟩ := hok
  constructor
  · simp only [List.length_dropLast]
    omega
  · intro i hi
    simp only [List.length_dropLast] at hi
    rw [List.getElem_dropLast]
    exact hnums i (by omega)

theorem applyOp_preserves_levelNumbersOK (m : Mesh) (op : MeshOp)
    (hok : levelNumbersOK m) : levelNumbersOK (m.applyOp op) := by
  cases op with
  | addLevel boxes g =>
    cases h2 : m.add_level boxes g with
    | ok m2 =>
      obtain ⟨lvl, rfl, hn⟩ := Mesh.add_level_ok_elim m boxes g m2 h2
      change levelNumbersOK (match m.add_level boxes g with
        | Except.ok m2 => m2
        | Except.error _ => m)
      rw [h2]
      exact levelNumbersOK_append m lvl hok hn
    | error e =>
      change levelNumbersOK (match m.add_level boxes g with
        | Except.ok m2 => m2
        | Except.error _ => m)
      rw [h2]
      exact hok
  | removeLevel =>
    cases h2 : m.remove_level with
    | ok p =>
      obtain ⟨l2, m2⟩ := p
      obtain ⟨hlen, -, hm2⟩ := Mesh.remove_level_ok_elim m l2 m2 h2
      change levelNumbersOK (match m.remove_level with
        | Except.ok (_, mm) => mm
        | Except.error _ => m)
      rw [h2, hm2]
      exact levelNumbersOK_dropLast m hok hlen
    | error e =>
      change levelNumbersOK (match m.remove_level with
        | Except.ok (_, mm) => mm
        | Except.error _ => m)
      rw [h2]
      exact hok

theorem applyOps_preserves_levelNumbersOK (m : Mesh) (ops : List MeshOp)
    (hok : levelNumbersOK m) : levelNumbersOK (m.applyOps ops) := by
  induction ops generalizing m with
  | nil => exact hok
  | cons op ops ih => exact ih _ (applyOp_preserves_levelNumbersOK m op hok)

/-- C3: a freshly constructed mesh has exactly one level, and after any
sequence of `add_level` and (successful) `remove_level` calls the hierarchy
invariant holds: `num_levels >= 1` and `levels[i].level_number == i` for
every index (contiguous numbering from 0, coarsest first). -/
theorem C3_level_hierarchy (meshId : Nat) (domain : List Box)
    (g : CartesianGeometry) (m0 : Mesh) (ops : List MeshOp)
    (h : Mesh.init meshId domain g = .ok m0) :
    m0.num_levels = 1 ∧ levelNumbersOK (m0.applyOps ops) := by
  obtain ⟨bbox, geom, lvl, rfl, hln⟩ := Mesh.init_ok_elim_mesh meshId domain g m0 h
  have hbase : levelNumbersOK ⟨meshId, domain, bbox, geom, [lvl], [], 0⟩ := by
    constructor
    · simp
    · intro i hi
      simp only [List.length_cons, List.length_nil] at hi
      have hieq : i = 0 := by omega
      subst hieq
      simpa using hln
  exact ⟨rfl, applyOps_preserves_levelNumbersOK _ ops hbase⟩

/-- Witness for C3: the concrete mesh, after adding a level and removing the
last level, still satisfies the hierarchy invariant. -/
theorem C3_witness :
    testMesh.num_levels = 1 ∧
    levelNumbersOK (testMesh.applyOps
      [.addLevel [testBoxL1] testGeom, .removeLevel, .addLevel [testBoxL1] testGeom]) :=
  C3_level_hierarchy 0 [testBox] testGeom testMesh
    [.addLevel [testBoxL1] testGeom, .removeLevel, .addLevel [testBoxL1] testGeom]
    testMesh_init

/-! ## C9: Mesh.data (corrected: the shape guard raises InvalidState) -/

/-- C9 counterexample: on a single-level mesh with a two-box domain (not
single-block), `Mesh.data` fails with `RuntimeError` — the spec's
`InvalidState` — not with `ValueError` (the spec's `InvalidArgument`), at
this concrete input. -/
theorem C9_counterexample :
    testMesh2B.data sampleVar2B =
      .error (.runtimeError ("Mesh is not single-block. data is unavailable")) := by
  decide

/-- C9 amended: `Mesh.data(variable)` fails with `RuntimeError` (the spec's
`InvalidState`, matching spec section 7's classification of "querying
`blocks`/`data` on an incompatible mesh shape") whenever the mesh is not
single-block; when the mesh is single-block and the variable is one of
`mesh.variables` (identity membership) with a stored entry on the unique
block, it returns exactly that block's array for the variable.  `Mesh.data`
is read-only: the mesh value is not modified. -/
theorem C9_mesh_data (m : Mesh) (v : MeshVariable) :
    (¬ m.is_single_block = true →
      m.data v = .error (.runtimeError ("Mesh is not single-block. data is unavailable"))) ∧
    (m.is_single_block = true →
      m.variableList.any (fun u => u.pyEq v) = true →
      ∀ lvl blk d, m.levels[0]? = some lvl → lvl.blocks[0]? = some blk →
        lookupId v.varId blk.dataEntries = some d →
        m.data v = .ok d) := by
  constructor
  · intro hnb
    unfold Mesh.data
    simp [hnb]
  · intro hsb hmem lvl blk d hlvl hblk hlook
    unfold Mesh.data
    simp only [hsb, hmem, Bool.not_true, Bool.false_eq_true, if_false, hlvl, hblk]
    unfold MeshBlock.data
    simp [hlook]

/-- Witness for C9's amended statement: on the concrete single-block mesh
with one registered variable, `Mesh.data` returns the stored 11 x 11
array. -/
theorem C9_witness :
    oneVarMesh.data sampleVar1 = .ok (.single ⟨[11, 11], .DOUBLE⟩) :=
  (C9_mesh_data oneVarMesh sampleVar1).2 (by decide) (by decide)
    ⟨0, [sampleVar1], [oneVarBlock]⟩ oneVarBlock (.single ⟨[11, 11], .DOUBLE⟩)
    (by decide) (by decide) (by decide)

/-! ## C2: MeshVariable equality (corrected: identity, not field equality) -/

theorem MeshVariable.init_ok_elim_variable (meshId varId num_dimensions : Nat)
    (location : Location) (msw : StencilWidthArg) (depth : Int)
    (precision : Precision) (v : MeshVariable)
    (h : MeshVariable.init meshId varId num_dimensions location msw depth precision =
      .ok v) :
    v = ⟨varId, meshId, location, stencilBroadcast msw num_dimensions, depth,
         precision⟩ := by
  cases msw with
  | scalar w =>
    cases h
    rfl
  | vector ws =>
    unfold MeshVariable.init at h
    by_cases he : ws.isEmpty
    · simp [he] at h
    · simp only [he, Bool.false_eq_true, if_false] at h
      cases h
      rfl

theorem Mesh.create_variable_ok_elim (m : Mesh) (location : Location)
    (msw : StencilWidthArg) (depth : Int) (precision : Precision)
    (lns : Option LevelNumsArg) (m2 : Mesh) (v : MeshVariable)
    (h : m.create_variable location msw depth precision lns = .ok (m2, v)) :
    v = ⟨m.nextVarId, m.meshId, location, stencilBroadcast msw m.num_dimensions,
         depth, precision⟩ ∧
    ∃ vl, validateLevelNumbers m.num_levels lns = .ok vl ∧
      addVarAtIndices m.levels (targetIdxList m.num_levels vl) v = .ok m2.levels ∧
      m2 = { m with variableList := m.variableList ++ [v], levels := m2.levels,
                    nextVarId := m.nextVarId + 1 } := by
  unfold Mesh.create_variable at h
  rw [bindOk] at h
  obtain ⟨vl, hval, h⟩ := h
  rw [bindOk] at h
  obtain ⟨v0, hinit, h⟩ := h
  rw [bindOk] at h
  obtain ⟨lvls, hadd, hok⟩ := h
  cases hok
  have hv := MeshVariable.init_ok_elim_variable _ _ _ _ _ _ _ _ hinit
  subst hv
  exact ⟨rfl, vl, hval, hadd, rfl⟩

/-- C2 counterexample: the two variables produced by two identical
`create_variable` calls on the concrete mesh agree on the owning mesh and on
every descriptive field (`MeshVariable.specEq`, the equality relation the
spec describes), yet Python `==` — object identity, since `MeshVariable`
defines no `__eq__` — compares them unequal, refuting the claimed
"equal iff same mesh and same fields". -/
theorem C2_counterexample :
    twoVarsDefault.map (fun t => (t.2.1, t.2.2)) = .ok (sampleVar1, sampleVar2) ∧
    MeshVariable.specEq sampleVar1 sampleVar2 = true ∧
    MeshVariable.pyEq sampleVar1 sampleVar2 = false := by decide

/-- C2 amended: `MeshVariable` defines no `__eq__`, so `u == v` is object
identity.  Two variables created by consecutive `create_variable` calls with
identical arguments agree on the owning mesh and all descriptive fields
(`specEq`), yet compare unequal under the code's `==` (`pyEq`): identity,
not field equality, decides `==`. -/
theorem C2_variable_equality_is_identity (m : Mesh) (location : Location)
    (msw : StencilWidthArg) (depth : Int) (precision : Precision)
    (lns : Option LevelNumsArg) (m1 m2 : Mesh) (v1 v2 : MeshVariable)
    (h1 : m.create_variable location msw depth precision lns = .ok (m1, v1))
    (h2 : m1.create_variable location msw depth precision lns = .ok (m2, v2)) :
    MeshVariable.specEq v1 v2 = true ∧ MeshVariable.pyEq v1 v2 = false := by
  obtain ⟨hv1, vl1, hval1, hadd1, hm1⟩ := Mesh.create_variable_ok_elim _ _ _ _ _ _ _ _ h1
  obtain ⟨hv2, vl2, hval2, hadd2, hm2⟩ := Mesh.create_variable_ok_elim _ _ _ _ _ _ _ _ h2
  have hmid : m1.meshId = m.meshId := by rw [hm1]
  have hnvi : m1.nextVarId = m.nextVarId + 1 := by rw [hm1]
  have hnd : m1.num_dimensions = m.num_dimensions := by
    unfold Mesh.num_dimensions
    rw [hm1]
  rw [hmid, hnvi, hnd] at hv2
  subst hv1
  subst hv2
  constructor
  · unfold MeshVariable.specEq
    simp
  · unfold MeshVariable.pyEq
    simp

/-- Witness for C2's amended statement at the concrete mesh and default
arguments. -/
theorem C2_witness :
    MeshVariable.specEq sampleVar1 sampleVar2 = true ∧
    MeshVariable.pyEq sampleVar1 sampleVar2 = false :=
  C2_variable_equality_is_identity testMesh .NODE (.scalar 0) 1 .DOUBLE none
    oneVarMesh twoVarMesh sampleVar1 sampleVar2 (by decide) (by decide)

/-! ## C1: identity-keyed storage under repeated create_variable -/

theorem lookupId_append_of_not_mem (entries : List (Nat × BlockData)) (k : Nat)
    (d : BlockData) (h : ∀ p ∈ entries, p.1 ≠ k) :
    lookupId k (entries ++ [(k, d)]) = some d := by
  induction entries with
  | nil => simp [lookupId]
  | cons p rest ih =>
    have hp : p.1 ≠ k := h p (by simp)
    unfold lookupId
    simp only [List.cons_append]
    rw [if_neg (by simpa using hp)]
    exact ih (fun q hq => h q (by simp [hq]))

theorem lookupId_map_replace (rest : List (Nat × BlockData)) (k k2 : Nat)
    (d : BlockData) (h : k ≠ k2) :
    lookupId k (rest.map (fun p => if p.1 == k2 then (k2, d) else p)) =
      lookupId k rest := by
  induction rest with
  | nil => rfl
  | cons p rest ih =>
    simp only [List.map_cons]
    unfold lookupId
    by_cases hpk : p.1 == k2
    · rw [if_pos hpk]
      have h1 : ¬ ((k2, d).1 == k) = true := by
        simp only [beq_iff_eq]
        omega
      have h2 : ¬ (p.1 == k) = true := by
        simp only [beq_iff_eq] at hpk ⊢
        omega
      rw [if_neg h1, if_neg h2]
      exact ih
    · rw [if_neg hpk]
      by_cases hpk2 : p.1 == k
      · rw [if_pos hpk2, if_pos hpk2]
      · rw [if_neg hpk2, if_neg hpk2]
        exact ih

theorem lookupId_append_single_other (entries : List (Nat × BlockData))
    (k k2 : Nat) (d : BlockData) (h : k ≠ k2) :
    lookupId k (entries ++ [(k2, d)]) = lookupId k entries := by
  induction entries with
  | nil =>
    simp only [List.nil_append, lookupId]
    rw [if_neg (by simp only [beq_iff_eq]; omega)]
  | cons p rest ih =>
    unfold lookupId
    simp only [List.cons_append]
    by_cases hpk : p.1 == k
    · rw [if_pos hpk, if_pos hpk]
    · rw [if_neg hpk, if_neg hpk]
      exact ih

theorem lookupId_dictInsert_other (entries : List (Nat × BlockData)) (k k2 : Nat)
    (d : BlockData) (h : k ≠ k2) :
    lookupId k (dictInsert entries k2 d) = lookupId k entries := by
  unfold dictInsert
  by_cases hmem : entries.any (fun p => p.1 == k2)
  · rw [if_pos hmem]
    exact lookupId_map_replace entries k k2 d h
  · rw [if_neg hmem]
    exact lookupId_append_single_other entries k k2 d h

theorem mem_dictInsert (entries : List (Nat × BlockData)) (k : Nat) (d : BlockData)
    (p : Nat × BlockData) (h : p ∈ dictInsert entries k d) :
    p.1 = k ∨ p ∈ entries := by
  unfold dictInsert at h
  by_cases hmem : entries.any (fun q => q.1 == k)
  · rw [if_pos hmem] at h
    obtain ⟨q, hq, hqp⟩ := List.mem_map.mp h
    by_cases hqk : q.1 == k
    · rw [if_pos hqk] at hqp
      left
      rw [hqp.symm]
    · rw [if_neg hqk] at hqp
      right
      rw [hqp.symm]
      exact hq
  · rw [if_neg hmem] at h
    rcases List.mem_append.mp h with hh | hh
    · right; exact hh
    · left
      simp only [List.mem_singleton] at hh
      rw [hh]

theorem dictInsert_fresh (entries : List (Nat × BlockData)) (k : Nat) (d : BlockData)
    (h : ∀ p ∈ entries, p.1 ≠ k) :
    dictInsert entries k d = entries ++ [(k, d)] := by
  unfold dictInsert
  rw [if_neg]
  simp only [List.any_eq_true, beq_iff_eq, not_exists]
  intro p hp
  exact h p hp.1 hp.2

theorem MeshBlock.add_variable_fresh_elim (blk : MeshBlock) (v : MeshVariable)
    (blk2 : MeshBlock) (hf : blockFresh v blk) (h : blk.add_variable v = .ok blk2) :
    ∃ d, blk2 = { blk with variableList := blk.variableList ++ [v],
                           dataEntries := blk.dataEntries ++ [(v.varId, d)] } := by
  unfold MeshBlock.add_variable at h
  have hguard : blk.variableList.any (fun u => u.pyEq v) = false := by
    simp only [List.any_eq_false]
    intro u hu
    simp only [MeshVariable.pyEq, beq_iff_eq]
    exact hf.1 u hu
  rw [hguard] at h
  simp only [Bool.false_eq_true, if_false] at h
  rw [bindOk] at h
  obtain ⟨d, hd, hok⟩ := h
  cases hok
  refine ⟨d, ?_⟩
  rw [dictInsert_fresh blk.dataEntries v.varId d hf.2]

theorem MeshBlock.add_variable_of_hasId (blk : MeshBlock) (v : MeshVariable)
    (h : blockHasId v.varId blk) : blk.add_variable v = .ok blk := by
  unfold MeshBlock.add_variable
  obtain ⟨⟨u, hu, huid⟩, -⟩ := h
  have hguard : blk.variableList.any (fun w => w.pyEq v) = true := by
    simp only [List.any_eq_true]
    exact ⟨u, hu, by simp [MeshVariable.pyEq, huid]⟩
  rw [hguard]
  rfl

theorem MeshBlock.add_variable_hasId_self (blk : MeshBlock) (v : MeshVariable)
    (blk2 : MeshBlock) (hf : blockFresh v blk) (h : blk.add_variable v = .ok blk2) :
    blockHasId v.varId blk2 := by
  obtain ⟨d, rfl⟩ := MeshBlock.add_variable_fresh_elim blk v blk2 hf h
  constructor
  · exact ⟨v, by simp, rfl⟩
  · exact ⟨d, lookupId_append_of_not_mem _ _ _ hf.2⟩

theorem MeshBlock.add_variable_preserves_hasId_block (blk : MeshBlock) (v : MeshVariable)
    (blk2 : MeshBlock) (k : Nat) (h : blk.add_variable v = .ok blk2)
    (hk : blockHasId k blk) : blockHasId k blk2 := by
  unfold MeshBlock.add_variable at h
  by_cases hguard : blk.variableList.any (fun u => u.pyEq v) = true
  · rw [hguard] at h
    simp only [if_true] at h
    cases h
    exact hk
  · rw [Bool.not_eq_true] at hguard
    rw [hguard] at h
    simp only [Bool.false_eq_true, if_false] at h
    rw [bindOk] at h
    obtain ⟨d, hd, hok⟩ := h
    cases hok
    obtain ⟨⟨u, hu, huid⟩, dk, hdk⟩ := hk
    have hkne : k ≠ v.varId := by
      simp only [List.any_eq_false] at hguard
      have hne := hguard u hu
      simp only [MeshVariable.pyEq, beq_iff_eq] at hne
      omega
    constructor
    · exact ⟨u, by simp [hu], huid⟩
    · refine ⟨dk, ?_⟩
      rw [lookupId_dictInsert_other _ _ _ _ hkne]
      exact hdk

theorem MeshBlock.add_variable_preserves_idsBelow_block (blk : MeshBlock) (v : MeshVariable)
    (blk2 : MeshBlock) (n : Nat) (hv : v.varId < n) (h : blk.add_variable v = .ok blk2)
    (hb : blockIdsBelow n blk) : blockIdsBelow n blk2 := by
  unfold MeshBlock.add_variable at h
  by_cases hguard : blk.variableList.any (fun u => u.pyEq v) = true
  · rw [hguard] at h
    simp only [if_true] at h
    cases h
    exact hb
  · rw [Bool.not_eq_true] at hguard
    rw [hguard] at h
    simp only [Bool.false_eq_true, if_false] at h
    rw [bindOk] at h
    obtain ⟨d, hd, hok⟩ := h
    cases hok
    constructor
    · intro u hu
      rcases List.mem_append.mp hu with hh | hh
      · exact hb.1 u hh
      · simp only [List.mem_singleton] at hh
        rw [hh]
        exact hv
    · intro p hp
      rcases mem_dictInsert _ _ _ p hp with hh | hh
      · rw [hh]; exact hv
      · exact hb.2 p hh

theorem mapExcept_ok_mem {α β : Type} (f : α → Except PyError β) :
    ∀ (xs : List α) (ys : List β), mapExcept f xs = .ok ys →
      ∀ y ∈ ys, ∃ x ∈ xs, f x = .ok y := by
  intro xs
  induction xs with
  | nil =>
    intro ys h y hy
    simp only [mapExcept] at h
    cases h
    simp at hy
  | cons x xs ih =>
    intro ys h y hy
    rw [mapExcept_cons_ok] at h
    obtain ⟨y0, ys2, hfx, hrest, rfl⟩ := h
    rcases List.mem_cons.mp hy with hh | hh
    · exact ⟨x, by simp, by rw [hh]; exact hfx⟩
    · obtain ⟨x2, hx2, hfx2⟩ := ih ys2 hrest y hh
      exact ⟨x2, by simp [hx2], hfx2⟩

theorem MeshLevel.add_variable_vars_superset (lvl : MeshLevel) (v : MeshVariable)
    (lvl2 : MeshLevel) (h : lvl.add_variable v = .ok lvl2) :
    ∀ u ∈ lvl.variableList, u ∈ lvl2.variableList := by
  obtain ⟨-, hvars, -⟩ := MeshLevel.add_variable_ok_elim lvl v lvl2 h
  intro u hu
  rw [hvars]
  by_cases hg : lvl.variableList.any (fun w => w.pyEq v) = true
  · simpa [hg] using hu
  · rw [Bool.not_eq_true] at hg
    simp [hg, hu]

theorem MeshLevel.add_variable_hasId_of_fresh (lvl : MeshLevel) (v : MeshVariable)
    (lvl2 : MeshLevel) (hf : levelFresh v lvl) (h : lvl.add_variable v = .ok lvl2) :
    levelHasId v.varId lvl2 := by
  obtain ⟨-, hvars, hmap⟩ := MeshLevel.add_variable_ok_elim lvl v lvl2 h
  constructor
  · rw [hvars]
    by_cases hg : lvl.variableList.any (fun w => w.pyEq v) = true
    · simp only [if_pos hg]
      obtain ⟨u, hu, hpe⟩ := List.any_eq_true.mp hg
      refine ⟨u, hu, ?_⟩
      simpa [MeshVariable.pyEq] using hpe
    · rw [Bool.not_eq_true] at hg
      simp only [hg, Bool.false_eq_true, if_false]
      exact ⟨v, by simp, rfl⟩
  · intro blk2 hblk2
    obtain ⟨blk, hblk, hadd⟩ := mapExcept_ok_mem _ _ _ hmap blk2 hblk2
    exact MeshBlock.add_variable_hasId_self blk v blk2 (hf blk hblk) hadd

theorem MeshLevel.add_variable_preserves_hasId_level (lvl : MeshLevel) (v : MeshVariable)
    (lvl2 : MeshLevel) (k : Nat) (h : lvl.add_variable v = .ok lvl2)
    (hk : levelHasId k lvl) : levelHasId k lvl2 := by
  obtain ⟨-, -, hmap⟩ := MeshLevel.add_variable_ok_elim lvl v lvl2 h
  constructor
  · obtain ⟨u, hu, huid⟩ := hk.1
    exact ⟨u, MeshLevel.add_variable_vars_superset lvl v lvl2 h u hu, huid⟩
  · intro blk2 hblk2
    obtain ⟨blk, hblk, hadd⟩ := mapExcept_ok_mem _ _ _ hmap blk2 hblk2
    exact MeshBlock.add_variable_preserves_hasId_block blk v blk2 k hadd (hk.2 blk hblk)

theorem MeshLevel.add_variable_hasId_of_ready (lvl : MeshLevel) (v : MeshVariable)
    (lvl2 : MeshLevel) (hr : levelReady v lvl) (h : lvl.add_variable v = .ok lvl2) :
    levelHasId v.varId lvl2 := by
  cases hr with
  | inl hf => exact MeshLevel.add_variable_hasId_of_fresh lvl v lvl2 hf h
  | inr hk => exact MeshLevel.add_variable_preserves_hasId_level lvl v lvl2 v.varId h hk

theorem MeshLevel.add_variable_preserves_idsBelow_level (lvl : MeshLevel) (v : MeshVariable)
    (lvl2 : MeshLevel) (n : Nat) (hv : v.varId < n) (h : lvl.add_variable v = .ok lvl2)
    (hl : levelIdsBelow n lvl) : levelIdsBelow n lvl2 := by
  obtain ⟨-, hvars, hmap⟩ := MeshLevel.add_variable_ok_elim lvl v lvl2 h
  constructor
  · intro u hu
    rw [hvars] at hu
    by_cases hg : lvl.variableList.any (fun w => w.pyEq v) = true
    · rw [if_pos hg] at hu
      exact hl.1 u hu
    · rw [Bool.not_eq_true] at hg
      simp only [hg, Bool.false_eq_true, if_false] at hu
      rcases List.mem_append.mp hu with hh | hh
      · exact hl.1 u hh
      · simp only [List.mem_singleton] at hh
        rw [hh]
        exact hv
  · intro blk2 hblk2
    obtain ⟨blk, hblk, hadd⟩ := mapExcept_ok_mem _ _ _ hmap blk2 hblk2
    exact MeshBlock.add_variable_preserves_idsBelow_block blk v blk2 n hv hadd (hl.2 blk hblk)

theorem levelIdsBelow_mono (n n2 : Nat) (lvl : MeshLevel) (h : n ≤ n2)
    (hl : levelIdsBelow n lvl) : levelIdsBelow n2 lvl := by
  refine ⟨fun u hu => ?_, fun blk hblk => ?_⟩
  · have := hl.1 u hu
    omega
  · obtain ⟨h1, h2⟩ := hl.2 blk hblk
    exact ⟨fun u hu => by have := h1 u hu; omega, fun p hp => by have := h2 p hp; omega⟩

theorem levelFresh_of_idsBelow (n : Nat) (v : MeshVariable) (lvl : MeshLevel)
    (hv : n ≤ v.varId) (hl : levelIdsBelow n lvl) : levelFresh v lvl := by
  intro blk hblk
  obtain ⟨h1, h2⟩ := hl.2 blk hblk
  refine ⟨fun u hu => ?_, fun p hp => ?_⟩
  · have := h1 u hu
    omega
  · have := h2 p hp
    omega

theorem addVarAtIndices_cons_ok (lvls : List MeshLevel) (j : Nat) (rest : List Nat)
    (v : MeshVariable) (lvls2 : List MeshLevel)
    (h : addVarAtIndices lvls (j :: rest) v = .ok lvls2) :
    ∃ lvlj lvlj2, lvls[j]? = some lvlj ∧ lvlj.add_variable v = .ok lvlj2 ∧
      addVarAtIndices (lvls.set j lvlj2) rest v = .ok lvls2 := by
  unfold addVarAtIndices foldExcept at h
  cases hj : lvls[j]? with
  | none =>
    rw [hj] at h
    simp [Bind.bind, Except.bind] at h
  | some lvlj =>
    rw [hj] at h
    rw [bindOk] at h
    obtain ⟨lvls1, hstep, hrest⟩ := h
    rw [bindOk] at hstep
    obtain ⟨lvlj2, hadd, hok⟩ := hstep
    cases hok
    exact ⟨lvlj, lvlj2, rfl, hadd, hrest⟩

theorem addVarAtIndices_length (v : MeshVariable) :
    ∀ (idxs : List Nat) (lvls lvls2 : List MeshLevel),
      addVarAtIndices lvls idxs v = .ok lvls2 → lvls2.length = lvls.length := by
  intro idxs
  induction idxs with
  | nil =>
    intro lvls lvls2 h
    cases h
    rfl
  | cons j rest ih =>
    intro lvls lvls2 h
    obtain ⟨lvlj, lvlj2, hj, hadd, hrest⟩ := addVarAtIndices_cons_ok lvls j rest v lvls2 h
    have := ih _ _ hrest
    simpa [List.length_set] using this

theorem addVarAtIndices_all (v : MeshVariable) (Q : MeshLevel → Prop)
    (hstep : ∀ lvl lvl2, Q lvl → lvl.add_variable v = .ok lvl2 → Q lvl2) :
    ∀ (idxs : List Nat) (lvls lvls2 : List MeshLevel),
      addVarAtIndices lvls idxs v = .ok lvls2 →
      (∀ lvl ∈ lvls, Q lvl) → ∀ lvl2 ∈ lvls2, Q lvl2 := by
  intro idxs
  induction idxs with
  | nil =>
    intro lvls lvls2 h hall
    cases h
    exact hall
  | cons j rest ih =>
    intro lvls lvls2 h hall
    obtain ⟨lvlj, lvlj2, hj, hadd, hrest⟩ := addVarAtIndices_cons_ok lvls j rest v lvls2 h
    refine ih _ _ hrest (fun lvl hl => ?_)
    rcases List.mem_or_eq_of_mem_set hl with hh | hh
    · exact hall lvl hh
    · rw [hh]
      exact hstep lvlj lvlj2 (hall lvlj (List.getElem?_mem hj)) hadd

theorem addVarAtIndices_pointwise (v : MeshVariable) (Q : MeshLevel → Prop)
    (hstep : ∀ lvl lvl2, Q lvl → lvl.add_variable v = .ok lvl2 → Q lvl2) :
    ∀ (idxs : List Nat) (lvls lvls2 : List MeshLevel),
      addVarAtIndices lvls idxs v = .ok lvls2 →
      ∀ (i : Nat) (lvl : MeshLevel), lvls[i]? = some lvl → Q lvl →
        ∀ lvl2, lvls2[i]? = some lvl2 → Q lvl2 := by
  intro idxs
  induction idxs with
  | nil =>
    intro lvls lvls2 h i lvl hi hQ lvl2 hi2
    cases h
    rw [hi] at hi2
    cases hi2
    exact hQ
  | cons j rest ih =>
    intro lvls lvls2 h i lvl hi hQ lvl2 hi2
    obtain ⟨lvlj, lvlj2, hj, hadd, hrest⟩ := addVarAtIndices_cons_ok lvls j rest v lvls2 h
    by_cases hij : j = i
    · subst hij
      rw [hj] at hi
      cases hi
      have hjlt : j < lvls.length := (List.getElem?_eq_some.mp hj).1
      refine ih _ _ hrest j lvlj2 ?_ (hstep _ _ hQ hadd) lvl2 hi2
      exact List.getElem?_set_self hjlt
    · refine ih _ _ hrest i lvl ?_ hQ lvl2 hi2
      rw [List.getElem?_set_ne hij]
      exact hi

theorem addVarAtIndices_hasId_target (v : MeshVariable) :
    ∀ (idxs : List Nat) (lvls lvls2 : List MeshLevel),
      addVarAtIndices lvls idxs v = .ok lvls2 →
      (∀ lvl ∈ lvls, levelReady v lvl) →
      ∀ i ∈ idxs, ∀ lvl2, lvls2[i]? = some lvl2 → levelHasId v.varId lvl2 := by
  intro idxs
  induction idxs with
  | nil =>
    intro lvls lvls2 h hall i hi
    simp at hi
  | cons j rest ih =>
    intro lvls lvls2 h hall i hi lvl2 hi2
    obtain ⟨lvlj, lvlj2, hj, hadd, hrest⟩ := addVarAtIndices_cons_ok lvls j rest v lvls2 h
    have hready2 : ∀ lvl ∈ lvls.set j lvlj2, levelReady v lvl := by
      intro lvl hl
      rcases List.mem_or_eq_of_mem_set hl with hh | hh
      · exact hall lvl hh
      · rw [hh]
        right
        exact MeshLevel.add_variable_hasId_of_ready lvlj v lvlj2
          (hall lvlj (List.getElem?_mem hj)) hadd
    rcases List.mem_cons.mp hi with hh | hh
    · subst hh
      have hjlt : i < lvls.length := (List.getElem?_eq_some.mp hj).1
      refine addVarAtIndices_pointwise v (levelHasId v.varId)
        (fun l l2 hq hok => MeshLevel.add_variable_preserves_hasId_level l v l2 v.varId hok hq)
        rest _ _ hrest i lvlj2 (List.getElem?_set_self hjlt) ?_ lvl2 hi2
      exact MeshLevel.add_variable_hasId_of_ready lvlj v lvlj2
        (hall lvlj (List.getElem?_mem hj)) hadd
    · exact ih _ _ hrest hready2 i hh lvl2 hi2

theorem targetIdx_lt (num_levels : Nat) (lns : Option LevelNumsArg)
    (vl : Option (List Int)) (hval : validateLevelNumbers num_levels lns = .ok vl) :
    ∀ i ∈ targetIdxList num_levels vl, i < num_levels := by
  intro i hi
  cases vl with
  | none =>
    simpa [targetIdxList] using hi
  | some ns =>
    cases lns with
    | none => simp [validateLevelNumbers] at hval
    | some arg =>
      cases arg with
      | scalar n =>
        unfold validateLevelNumbers at hval
        by_cases hn : n < 0
        · simp [hn] at hval
        · simp only [hn, if_false] at hval
          by_cases hn2 : (num_levels : Int) ≤ n
          · simp [hn2] at hval
          · simp only [hn2, if_false] at hval
            cases hval
            simp only [targetIdxList, List.map_cons, List.map_nil,
              List.mem_singleton] at hi
            subst hi
            omega
      | vector ns0 =>
        unfold validateLevelNumbers at hval
        by_cases he : ns0.isEmpty
        · simp [he] at hval
        · simp only [he, Bool.false_eq_true, if_false] at hval
          by_cases hneg : ns0.any (fun n => n < 0)
          · simp [hneg] at hval
          · simp only [hneg, Bool.false_eq_true, if_false] at hval
            by_cases hbig : ns0.any (fun n => (num_levels : Int) ≤ n)
            · simp [hbig] at hval
            · simp only [hbig, Bool.false_eq_true, if_false] at hval
              cases hval
              simp only [targetIdxList, List.mem_map] at hi
              obtain ⟨n, hn, rfl⟩ := hi
              rw [Bool.not_eq_true] at hneg hbig
              simp only [List.any_eq_false, decide_eq_true_eq] at hneg hbig
              have h1 := hneg n hn
              have h2 := hbig n hn
              omega

theorem Mesh.create_variable_freshIds (m : Mesh) (location : Location)
    (msw : StencilWidthArg) (depth : Int) (precision : Precision)
    (lns : Option LevelNumsArg) (m2 : Mesh) (v : MeshVariable)
    (hf : m.freshIds)
    (h : m.create_variable location msw depth precision lns = .ok (m2, v)) :
    m2.freshIds := by
  obtain ⟨hv, vl, hval, hadd, hm2⟩ := Mesh.create_variable_ok_elim _ _ _ _ _ _ _ _ h
  have hvars : m2.variableList = m.variableList ++ [v] := by rw [hm2]
  have hnext : m2.nextVarId = m.nextVarId + 1 := by rw [hm2]
  have hvid : v.varId = m.nextVarId := by rw [hv]
  constructor
  · intro u hu
    rw [hvars] at hu
    rw [hnext]
    rcases List.mem_append.mp hu with hh | hh
    · have := hf.1 u hh
      omega
    · simp only [List.mem_singleton] at hh
      rw [hh]
      omega
  · intro lvl hlvl
    rw [hnext]
    refine addVarAtIndices_all v (levelIdsBelow (m.nextVarId + 1))
      (fun l l2 hq hok =>
        MeshLevel.add_variable_preserves_idsBelow_level l v l2 _ (by omega) hok hq)
      _ _ _ hadd (fun l hl => levelIdsBelow_mono _ _ l (by omega) (hf.2 l hl)) lvl hlvl

/-- C1: two `create_variable` calls with identical arguments yield two
distinct `MeshVariable` objects (unequal under Python `==`, which is object
identity), both present in `mesh.variables` afterwards; on every block of
every targeted level, each of them has its own entry in the block's
identity-keyed data dict, and `block.data(variable)` retrieves each one's
array independently (looking one up never returns the other's entry: the two
entries live under the two distinct identities). -/
theorem C1_create_variable_twice_independent (m : Mesh) (location : Location)
    (msw : StencilWidthArg) (depth : Int) (precision : Precision)
    (lns : Option LevelNumsArg) (m1 m2 : Mesh) (v1 v2 : MeshVariable)
    (hfresh : m.freshIds)
    (h1 : m.create_variable location msw depth precision lns = .ok (m1, v1))
    (h2 : m1.create_variable location msw depth precision lns = .ok (m2, v2)) :
    v1 ≠ v2 ∧ MeshVariable.pyEq v1 v2 = false ∧
    v1 ∈ m2.variableList ∧ v2 ∈ m2.variableList ∧
    ∀ vl, validateLevelNumbers m.num_levels lns = .ok vl →
      ∀ i ∈ targetIdxList m.num_levels vl,
        ∀ lvl, m2.levels[i]? = some lvl →
          ∀ blk ∈ lvl.blocks,
            ∃ d1 d2, lookupId v1.varId blk.dataEntries = some d1 ∧
              lookupId v2.varId blk.dataEntries = some d2 ∧
              blk.data v1 = .ok d1 ∧ blk.data v2 = .ok d2 := by
  have hf1 : m1.freshIds :=
    Mesh.create_variable_freshIds m location msw depth precision lns m1 v1 hfresh h1
  obtain ⟨hv1, vl1, hval1, hadd1, hm1⟩ := Mesh.create_variable_ok_elim _ _ _ _ _ _ _ _ h1
  obtain ⟨hv2, vl2, hval2, hadd2, hm2⟩ := Mesh.create_variable_ok_elim _ _ _ _ _ _ _ _ h2
  have hm1next : m1.nextVarId = m.nextVarId + 1 := by rw [hm1]
  have hm1vars : m1.variableList = m.variableList ++ [v1] := by rw [hm1]
  have hm2vars : m2.variableList = m1.variableList ++ [v2] := by rw [hm2]
  have hv1id : v1.varId = m.nextVarId := by rw [hv1]
  have hv2id : v2.varId = m.nextVarId + 1 := by
    rw [hv2, hm1next]
  have hm1len : m1.levels.length = m.levels.length :=
    addVarAtIndices_length v1 _ _ _ hadd1
  have hm1num : m1.num_levels = m.num_levels := by
    unfold Mesh.num_levels
    omega
  refine ⟨?_, ?_, ?_, ?_, ?_⟩
  · intro he
    rw [he] at hv1id
    omega
  · simp only [MeshVariable.pyEq, hv1id, hv2id, beq_iff_eq]
    simp
  · rw [hm2vars, hm1vars]
    simp
  · rw [hm2vars]
    simp
  · intro vl hval i hi lvl hlvl blk hblk
    have hvl1 : vl1 = vl := by
      rw [hval1] at hval
      exact (Except.ok.inj hval)
    have hvl2 : vl2 = vl := by
      rw [hm1num, hval] at hval2
      exact (Except.ok.inj hval2).symm
    rw [hvl1] at hadd1
    rw [hm1num, hvl2] at hadd2
    have hilt := targetIdx_lt m.num_levels lns vl hval i hi
    have hi1lt : i < m1.levels.length := by
      rw [hm1len]
      rw [Mesh.num_levels] at hilt
      omega
    obtain ⟨lvlA, hlvlA⟩ : ∃ l, m1.levels[i]? = some l :=
      ⟨m1.levels[i], List.getElem?_eq_getElem hi1lt⟩
    have hready1 : ∀ l ∈ m.levels, levelReady v1 l := fun l hl =>
      Or.inl (levelFresh_of_idsBelow m.nextVarId v1 l (by omega) (hfresh.2 l hl))
    have hhas1A : levelHasId v1.varId lvlA :=
      addVarAtIndices_hasId_target v1 _ _ _ hadd1 hready1 i hi lvlA hlvlA
    have hhas1 : levelHasId v1.varId lvl :=
      addVarAtIndices_pointwise v2 (levelHasId v1.varId)
        (fun l l2 hq hok => MeshLevel.add_variable_preserves_hasId_level l v2 l2 _ hok hq)
        _ _ _ hadd2 i lvlA hlvlA hhas1A lvl hlvl
    have hready2 : ∀ l ∈ m1.levels, levelReady v2 l := fun l hl =>
      Or.inl (levelFresh_of_idsBelow m1.nextVarId v2 l
        (by rw [hm1next]; omega) (hf1.2 l hl))
    have hhas2 : levelHasId v2.varId lvl :=
      addVarAtIndices_hasId_target v2 _ _ _ hadd2 hready2 i hi lvl hlvl
    obtain ⟨d1, hd1⟩ := (hhas1.2 blk hblk).2
    obtain ⟨d2, hd2⟩ := (hhas2.2 blk hblk).2
    refine ⟨d1, d2, hd1, hd2, ?_, ?_⟩
    · unfold MeshBlock.data
      rw [hd1]
    · unfold MeshBlock.data
      rw [hd2]

/-- Witness for C1: the concrete default double-creation on `testMesh`,
instantiated at the single targeted level and its single block. -/
theorem C1_witness :
    sampleVar1 ≠ sampleVar2 ∧ MeshVariable.pyEq sampleVar1 sampleVar2 = false ∧
    sampleVar1 ∈ twoVarMesh.variableList ∧ sampleVar2 ∈ twoVarMesh.variableList ∧
    (∃ d1 d2, lookupId sampleVar1.varId twoVarBlock.dataEntries = some d1 ∧
      lookupId sampleVar2.varId twoVarBlock.dataEntries = some d2 ∧
      twoVarBlock.data sampleVar1 = .ok d1 ∧ twoVarBlock.data sampleVar2 = .ok d2) := by
  have h := C1_create_variable_twice_independent testMesh .NODE (.scalar 0) 1 .DOUBLE
    none oneVarMesh twoVarMesh sampleVar1 sampleVar2
    (by constructor <;> simp [testMesh, levelIdsBelow, blockIdsBelow])
    (by decide) (by decide)
  refine ⟨h.1, h.2.1, h.2.2.1, h.2.2.2.1, ?_⟩
  exact h.2.2.2.2 none rfl 0 (by decide) ⟨0, [sampleVar1, sampleVar2], [twoVarBlock]⟩
    (by decide) twoVarBlock (by decide)

end PySAMR
